import Mathlib

/-!
Verification of the mindb storage engine (an append-only, Bitcask-style
key-value store) against its natural-language specification.

The Go sources are shallowly embedded: byte buffers are lists of naturals
below 256, files are byte lists or abstract record lists, the in-memory
indexes are association lists (the skiplist-backed String index is a
sorted association list), and the engine operations are pure state
transformers that also emit the log records they append.  Machine
integers are modelled by Nat/Int with explicit truncation where the code
truncates.
-/

set_option maxRecDepth 4000
set_option linter.unusedVariables false
set_option linter.unreachableTactic false
set_option linter.unnecessarySeqFocus false

namespace MinDb

/-- Bytes is the model of a Go byte slice: a list of naturals below 256. -/
abbrev Bytes := List Nat

/-- beU16 models binary.BigEndian.PutUint16: two big-endian bytes of n. -/
def beU16 (n : Nat) : Bytes := [n / 256 % 256, n % 256]

/-- beU32 models binary.BigEndian.PutUint32: four big-endian bytes of n. -/
def beU32 (n : Nat) : Bytes :=
  [n / 16777216 % 256, n / 65536 % 256, n / 256 % 256, n % 256]

/-- getU16 models binary.BigEndian.Uint16 read at offset off of buf. -/
def getU16 (buf : Bytes) (off : Nat) : Nat :=
  buf.getD off 0 * 256 + buf.getD (off + 1) 0

/-- getU32 models binary.BigEndian.Uint32 read at offset off of buf. -/
def getU32 (buf : Bytes) (off : Nat) : Nat :=
  buf.getD off 0 * 16777216 + buf.getD (off + 1) 0 * 65536 +
    buf.getD (off + 2) 0 * 256 + buf.getD (off + 3) 0

/-- crc32Round is one bit-step of the CRC-32/IEEE shift register
(reversed polynomial 0xEDB88320), as computed by hash/crc32. -/
def crc32Round (c : Nat) : Nat :=
  if c % 2 = 1 then (c / 2) ^^^ 0xEDB88320 else c / 2

/-- crc32Byte folds one input byte into the CRC-32/IEEE accumulator. -/
def crc32Byte (c b : Nat) : Nat :=
  Nat.iterate crc32Round 8 (c ^^^ b % 256)

/-- crc32 models crc32.ChecksumIEEE over a byte list. -/
def crc32 (data : Bytes) : Nat :=
  (data.foldl crc32Byte 0xFFFFFFFF) ^^^ 0xFFFFFFFF

/-- entryHeaderSize is the fixed record header size (src/storage/entry.go). -/
def entryHeaderSize : Nat := 20

/-- Data-type tags of records (src/storage/entry.go: String..ZSet). -/
def TString : Nat := 0

/-- List data-type tag. -/
def TList : Nat := 1

/-- Hash data-type tag. -/
def THash : Nat := 2

/-- Set data-type tag. -/
def TSet : Nat := 3

/-- ZSet data-type tag. -/
def TZSet : Nat := 4

/-- String operation marks (src/unnamed/part_000: StringSet, StringRem). -/
def StringSet : Nat := 0

/-- StringRem mark. -/
def StringRem : Nat := 1

/-- List operation marks (src/unnamed/part_000: ListLPush..ListLTrim). -/
def ListLPush : Nat := 0

/-- ListRPush mark. -/
def ListRPush : Nat := 1

/-- ListLPop mark. -/
def ListLPop : Nat := 2

/-- ListRPop mark. -/
def ListRPop : Nat := 3

/-- ListLRem mark. -/
def ListLRem : Nat := 4

/-- ListLInsert mark. -/
def ListLInsert : Nat := 5

/-- ListLSet mark. -/
def ListLSet : Nat := 6

/-- ListLTrim mark. -/
def ListLTrim : Nat := 7

/-- Hash operation marks (HashHSet, HashHDel). -/
def HashHSet : Nat := 0

/-- HashHDel mark. -/
def HashHDel : Nat := 1

/-- Set operation marks (SetSAdd, SetSRem, SetSMove). -/
def SetSAdd : Nat := 0

/-- SetSRem mark. -/
def SetSRem : Nat := 1

/-- SetSMove mark. -/
def SetSMove : Nat := 2

/-- ZSet operation marks (src/unnamed/part_000 lines 58-59: ZSetZAdd,
ZSetZRem). -/
def ZSetZAdd : Nat := 0

/-- ZSetZRem mark. -/
def ZSetZRem : Nat := 1

/-- Meta models storage.Meta: the three payload slices and their sizes. -/
structure Meta where
  key : Bytes
  value : Bytes
  extra : Bytes
  keySize : Nat
  valueSize : Nat
  extraSize : Nat
deriving Repr, DecidableEq

/-- Entry models storage.Entry: meta, data-type tag, operation mark and
the stored crc32 checksum of the value bytes. -/
structure Entry where
  meta : Meta
  typ : Nat
  mark : Nat
  crc : Nat
deriving Repr, DecidableEq

/-- newEntry models storage.NewEntry: sizes are the payload lengths and
the checksum field starts at zero. -/
def newEntry (key value extra : Bytes) (t mark : Nat) : Entry :=
  { meta := { key := key, value := value, extra := extra,
              keySize := key.length, valueSize := value.length,
              extraSize := extra.length },
    typ := t, mark := mark, crc := 0 }

/-- newEntryNoExtra models storage.NewEntryNoExtra. -/
def newEntryNoExtra (key value : Bytes) (t mark : Nat) : Entry :=
  newEntry key value [] t mark

/-- Entry.size models storage.Entry.Size: header plus the three declared
payload sizes. -/
def Entry.size (e : Entry) : Nat :=
  entryHeaderSize + e.meta.keySize + e.meta.valueSize + e.meta.extraSize

/-- setBytes models Go copy(buf[off:off+src.length], src) for a write
that stays inside the buffer: splice src over buf at offset off. -/
def setBytes (buf : Bytes) (off : Nat) (src : Bytes) : Bytes :=
  buf.take off ++ src ++ buf.drop (off + src.length)

/-- Entry.encode models storage.Entry.Encode: fail on an empty key size,
otherwise write the header fields at their fixed offsets into a zeroed
buffer of exact size, copy key, value and extra contiguously (Go copy
truncates the source at the declared size), and patch the CRC of the
value bytes into bytes 0..4. -/
def Entry.encode (e : Entry) : Option Bytes :=
  if e.meta.keySize = 0 then none else
  let ks := e.meta.keySize
  let vs := e.meta.valueSize
  let es := e.meta.extraSize
  let buf0 := List.replicate e.size 0
  let buf1 := setBytes buf0 4 (beU32 ks)
  let buf2 := setBytes buf1 8 (beU32 vs)
  let buf3 := setBytes buf2 12 (beU32 es)
  let buf4 := setBytes buf3 16 (beU16 e.typ)
  let buf5 := setBytes buf4 18 (beU16 e.mark)
  let buf6 := setBytes buf5 entryHeaderSize (e.meta.key.take ks)
  let buf7 := setBytes buf6 (entryHeaderSize + ks) (e.meta.value.take vs)
  let buf8 := if 0 < es then
    setBytes buf7 (entryHeaderSize + ks + vs) (e.meta.extra.take es)
  else buf7
  some (setBytes buf8 0 (beU32 (crc32 e.meta.value)))

/-- decode models storage.Decode: read the header fields of the 20-byte
buffer; the payload slots stay empty and the CRC is not yet validated. -/
def decode (buf : Bytes) : Entry :=
  { meta := { key := [], value := [], extra := [],
              keySize := getU32 buf 4, valueSize := getU32 buf 8,
              extraSize := getU32 buf 12 },
    typ := getU16 buf 16, mark := getU16 buf 18, crc := getU32 buf 0 }

/-- RwMethod models storage.FileRWMethod: standard file I/O or a
memory-mapped file. -/
inductive RwMethod where
  | standard : RwMethod
  | mapped : RwMethod
deriving Repr, DecidableEq

/-- ReadErr models the errors surfaced by DBFile.Read: io.EOF from a
short positional read, or storage.ErrInvalidCrc. -/
inductive ReadErr where
  | eof : ReadErr
  | invalidCrc : ReadErr
deriving Repr, DecidableEq

/-- readBuf models DBFile.readBuf on a file whose bytes are data.  With
standard I/O, File.ReadAt fails with io.EOF when fewer than n bytes are
available.  With mmap, the buffer starts zeroed and copy fills as many
bytes as the mapping still has past offset, so the read never fails and
the tail of the buffer stays zero. -/
def readBuf (method : RwMethod) (data : Bytes) (offset n : Nat) :
    Option Bytes :=
  match method with
  | .standard =>
    if offset + n ≤ data.length then some ((data.drop offset).take n)
    else none
  | .mapped =>
    if offset ≤ data.length then
      let src := (data.drop offset).take n
      some (src ++ List.replicate (n - src.length) 0)
    else some (List.replicate n 0)

/-- dbFileRead models DBFile.Read: read and decode the 20-byte header at
offset, read the key, value and extra slices at the consecutive offsets
when their declared sizes are positive, then verify the CRC-32 of the
value bytes against the stored checksum. -/
def dbFileRead (method : RwMethod) (data : Bytes) (offset : Nat) :
    Except ReadErr Entry :=
  match readBuf method data offset entryHeaderSize with
  | none => .error .eof
  | some hdr =>
    let e0 := decode hdr
    let off1 := offset + entryHeaderSize
    match (if 0 < e0.meta.keySize then
             readBuf method data off1 e0.meta.keySize
           else some []) with
    | none => .error .eof
    | some key =>
      let e1 := if 0 < e0.meta.keySize then
        { e0 with meta := { e0.meta with key := key } } else e0
      let off2 := off1 + e1.meta.keySize
      match (if 0 < e1.meta.valueSize then
               readBuf method data off2 e1.meta.valueSize
             else some []) with
      | none => .error .eof
      | some value =>
        let e2 := if 0 < e1.meta.valueSize then
          { e1 with meta := { e1.meta with value := value } } else e1
        let off3 := off2 + e2.meta.valueSize
        match (if 0 < e2.meta.extraSize then
                 readBuf method data off3 e2.meta.extraSize
               else some []) with
        | none => .error .eof
        | some extra =>
          let e3 := if 0 < e2.meta.extraSize then
            { e2 with meta := { e2.meta with extra := extra } } else e2
          if crc32 e3.meta.value = e3.crc then .ok e3
          else .error .invalidCrc

/-- scanFileAux models the per-segment loop of MinDB.loadIdxFromFiles
(src/unnamed/part_000 lines 199-221): starting from offset 0, while the
offset is at most BlockSize, read the record at the offset, record it for
replay and advance by its size; stop cleanly on io.EOF and surface any
other read error. -/
def scanFileAux (method : RwMethod) (blockSize : Nat) (data : Bytes)
    (offset : Nat) : Except ReadErr (List (Nat × Entry)) :=
  if _h : offset ≤ blockSize then
    match dbFileRead method data offset with
    | .ok e =>
      match scanFileAux method blockSize data (offset + e.size) with
      | .ok rest => .ok ((offset, e) :: rest)
      | .error err => .error err
    | .error .eof => .ok []
    | .error err => .error err
  else .ok []
termination_by blockSize + 1 - offset
decreasing_by simp [Entry.size, entryHeaderSize]; omega

/-- scanFile is the scan of one segment from offset 0: the list of
records that loadIdxFromFiles replays into the indexes. -/
def scanFile (method : RwMethod) (blockSize : Nat) (data : Bytes) :
    Except ReadErr (List (Nat × Entry)) :=
  scanFileAux method blockSize data 0

/-- KindFiles models one data-kind's segment state in the engine: the
active segment id and write offset, the persisted per-kind
active-write-offset (db.meta.ActiveWriteOff), the archived segments with
the offset they held when archived, the ids synced during rotation, and
the log of appended records with their (file id, offset) positions. -/
structure KindFiles where
  activeId : Nat
  activeOffset : Nat
  writeOff : Nat
  archived : List (Nat × Nat)
  syncs : List Nat
  log : List (Nat × Nat × Entry)
deriving Repr, DecidableEq

/-- emptyKindFiles is the state of a kind in a freshly created database:
active file id 0 at offset 0. -/
def emptyKindFiles : KindFiles :=
  { activeId := 0, activeOffset := 0, writeOff := 0, archived := [],
    syncs := [], log := [] }

/-- rotateIfNeeded models the rotation step of MinDB.store
(src/mindb.go lines 431-448): when the record does not fit, sync the
active segment, move it into the archived map under its id, open a fresh
active segment with the next id, and zero the persisted
active-write-offset. -/
def rotateIfNeeded (blockSize : Nat) (fs : KindFiles) (e : Entry) :
    KindFiles :=
  if blockSize < fs.activeOffset + e.size then
    { activeId := fs.activeId + 1, activeOffset := 0, writeOff := 0,
      archived := fs.archived ++ [(fs.activeId, fs.activeOffset)],
      syncs := fs.syncs ++ [fs.activeId], log := fs.log }
  else fs

/-- storeK models MinDB.store for one kind: rotate if the record does
not fit, then DBFile.Write (which rejects an empty key without writing),
advance the active offset by the record size and persist it as the
kind's active-write-offset.  The returned position is the (file id,
offset) the record was written at, or none when Write failed. -/
def storeK (blockSize : Nat) (fs : KindFiles) (e : Entry) :
    KindFiles × Option (Nat × Nat) :=
  let fs1 := rotateIfNeeded blockSize fs e
  if e.meta.keySize = 0 then (fs1, none)
  else
    ({ fs1 with activeOffset := fs1.activeOffset + e.size,
                writeOff := fs1.activeOffset + e.size,
                log := fs1.log ++ [(fs1.activeId, fs1.activeOffset, e)] },
     some (fs1.activeId, fs1.activeOffset))

/-- runStoresIds runs a sequence of stores of one kind and collects the
ids of the fresh active segments assigned at each rotation. -/
def runStoresIds (blockSize : Nat) (fs : KindFiles) :
    List Entry → KindFiles × List Nat
  | [] => (fs, [])
  | e :: es =>
    let assigned := if blockSize < fs.activeOffset + e.size then
      [fs.activeId + 1] else []
    let out := runStoresIds blockSize (storeK blockSize fs e).1 es
    (out.1, assigned ++ out.2)

/-- Indexer models index.Indexer (src/unnamed/part_001 lines 8-14): the
record meta, the id of the segment holding the record, the record size
and its offset in that segment. -/
structure Indexer where
  meta : Meta
  fileId : Nat
  entrySize : Nat
  offset : Nat
deriving Repr, DecidableEq

/-- blt models bytes.Compare(a, b) < 0: strict lexicographic order on
byte slices, shorter prefixes first. -/
def blt : Bytes → Bytes → Bool
  | [], [] => false
  | [], _ :: _ => true
  | _ :: _, [] => false
  | a :: as, b :: bs => if a < b then true else if b < a then false
      else blt as bs

/-- isPfx models strings.HasPrefix: isPfx p k is true when p is a prefix
of k. -/
def isPfx : Bytes → Bytes → Bool
  | [], _ => true
  | _ :: _, [] => false
  | a :: as, b :: bs => a == b && isPfx as bs

/-- skGet models SkipList.Get: the element whose key equals the argument
(the skiplist is abstracted as its sorted base level). -/
def skGet (l : List Indexer) (key : Bytes) : Option Indexer :=
  l.find? (fun i => i.meta.key == key)

/-- skPut models SkipList.Put: insert at the sorted position, updating
in place when the key is already present. -/
def skPut : List Indexer → Bytes → Indexer → List Indexer
  | [], _, idx => [idx]
  | i :: t, key, idx =>
    if blt key i.meta.key then idx :: i :: t
    else if key == i.meta.key then idx :: t
    else i :: skPut t key idx

/-- skRemove models SkipList.Remove: drop the element with the key and
report whether one was found. -/
def skRemove : List Indexer → Bytes → List Indexer × Bool
  | [], _ => ([], false)
  | i :: t, key =>
    if i.meta.key == key then (t, true)
    else
      let r := skRemove t key
      (i :: r.1, r.2)

/-- findPfx models SkipList.FindPrefix (src/index/skiplist.go lines
191-209): the chain starting at the first element whose key is not below
the prefix; when every key is below the prefix the code falls back to
the front of the list. -/
def findPfx (l : List Indexer) (p : Bytes) : List Indexer :=
  let s := l.dropWhile (fun i => blt i.meta.key p)
  if s.isEmpty then l else s

/-- lookupA is assoc-list lookup by byte-slice key, modelling a Go map
indexed by string(key). -/
def lookupA {α : Type} (m : List (Bytes × α)) (k : Bytes) : Option α :=
  (m.find? (fun kv => kv.1 == k)).map (fun kv => kv.2)

/-- updA updates the entry of a key in place, appending a fresh entry
when the key is absent (Go map assignment). -/
def updA {α : Type} : List (Bytes × α) → Bytes → α → List (Bytes × α)
  | [], k, v => [(k, v)]
  | kv :: t, k, v => if kv.1 == k then (k, v) :: t else kv :: updA t k v

/-- removeA deletes the entry of a key (Go map delete). -/
def removeA {α : Type} : List (Bytes × α) → Bytes → List (Bytes × α)
  | [], _ => []
  | kv :: t, k => if kv.1 == k then t else kv :: removeA t k

/-- ListIdx models the list index: string(key) to the list of values
(container/list abstracted as a Lean list; a nil list and an empty list
behave identically in every ds/list operation). -/
abbrev ListIdx := List (Bytes × List Bytes)

/-- HashIdx models the hash index: key to a field-to-value mapping. -/
abbrev HashIdx := List (Bytes × List (Bytes × Bytes))

/-- SetIdx models the set index: key to the collection of members. -/
abbrev SetIdx := List (Bytes × List Bytes)

/-- Score models a float64 zset score by its canonical decimal text, the
output of utils.Float64ToStr.  Modelled from the spec: the utils package
is not under src/, and the spec (section 6) guarantees the score text is
an IEEE-754 double formatted without loss, so score equality coincides
with text equality. -/
abbrev Score := Bytes

/-- float64ToStr models utils.Float64ToStr on canonical-text scores.
Modelled from the spec: utils is not under src/. -/
def float64ToStr (s : Score) : Bytes := s

/-- strToFloat64 models utils.StrToFloat64 on canonical-text scores.
Modelled from the spec: utils is not under src/; on the texts the engine
itself writes, parsing recovers exactly the formatted score. -/
def strToFloat64 (b : Bytes) : Option Score := some b

/-- ZSetIdx models the zset index: key to a member-to-score mapping
(spec section 3: sorted set with a 64-bit float score per member). -/
abbrev ZSetIdx := List (Bytes × List (Bytes × Score))

/-- zAdd stores member to score under the key.  Modelled from the spec:
ds/zset is not under src/; section 4.5 gives ZAdd(score). -/
def zAdd (zi : ZSetIdx) (k : Bytes) (score : Score) (m : Bytes) : ZSetIdx :=
  updA zi k (updA ((lookupA zi k).getD []) m score)

/-- zRem removes a member under the key.  Modelled from the spec: ds/zset
is not under src/. -/
def zRem (zi : ZSetIdx) (k m : Bytes) : ZSetIdx :=
  match lookupA zi k with
  | none => zi
  | some inner => updA zi k (removeA inner m)

/-- Expires models storage.Expires (src/unnamed/part_003): key to
deadline in seconds. -/
abbrev Expires := List (Bytes × Nat)

/-- expired evaluates the expiry test the engine uses: a deadline exists
for the key and it is at most now. -/
def expired (exp : Expires) (now : Nat) (k : Bytes) : Bool :=
  match lookupA exp k with
  | some deadline => decide (deadline ≤ now)
  | none => false

/-- listPush models ds/list push (src/ds/list/list.go lines 304-319) for
one value: create the list when absent, then push front or back. -/
def listPush (front : Bool) (li : ListIdx) (k v : Bytes) : ListIdx :=
  let cur := (lookupA li k).getD []
  updA li k (if front then v :: cur else cur ++ [v])

/-- listPop models ds/list pop (lines 322-339): nothing happens on an
absent or empty list, otherwise remove and return the front or back
element. -/
def listPop (front : Bool) (li : ListIdx) (k : Bytes) :
    Option Bytes × ListIdx :=
  match lookupA li k with
  | none => (none, li)
  | some [] => (none, li)
  | some (x :: t) =>
    if front then (some x, updA li k t)
    else ((x :: t).getLast?, updA li k (x :: t).dropLast)

/-- removeFirstN removes up to n elements equal to v, scanning from the
front, and counts how many were removed. -/
def removeFirstN : List Bytes → Bytes → Nat → List Bytes × Nat
  | [], _, _ => ([], 0)
  | x :: t, v, n =>
    if n = 0 then (x :: t, 0)
    else if x == v then
      let r := removeFirstN t v (n - 1)
      (r.1, r.2 + 1)
    else
      let r := removeFirstN t v n
      (x :: r.1, r.2)

/-- listLRem models ds/list LRem (lines 80-118): count zero removes all
matches, positive removes from the front, negative from the back; an
absent list removes nothing and leaves the map untouched. -/
def listLRem (li : ListIdx) (k v : Bytes) (count : Int) :
    Nat × ListIdx :=
  match lookupA li k with
  | none => (0, li)
  | some cur =>
    if count = 0 then
      ((cur.filter (fun x => x == v)).length,
       updA li k (cur.filter (fun x => !(x == v))))
    else if 0 < count then
      let r := removeFirstN cur v count.toNat
      (r.2, updA li k r.1)
    else
      let r := removeFirstN cur.reverse v (-count).toNat
      (r.2, updA li k r.1.reverse)

/-- listLInsert models ds/list LInsert (lines 122-137): find the first
element equal to the pivot; when absent return -1, otherwise insert the
value before (option 0) or after (option 1) it and return the resulting
length.  The option is the uint8 InsertOption. -/
def listLInsert (li : ListIdx) (k : Bytes) (o : Nat) (pivot v : Bytes) :
    Int × ListIdx :=
  match lookupA li k with
  | none => (-1, li)
  | some cur =>
    match cur.findIdx? (fun x => x == pivot) with
    | none => (-1, li)
    | some i =>
      let updated :=
        if o = 0 then cur.take i ++ v :: cur.drop i
        else if o = 1 then cur.take (i + 1) ++ v :: cur.drop (i + 1)
        else cur
      ((updated.length : Int), updA li k updated)

/-- listIndexPos models ds/list validIndex (lines 342-354): normalise a
possibly negative index against the length and check the bounds. -/
def listIndexPos (cur : List Bytes) (i : Int) : Option Nat :=
  if cur.length = 0 then none
  else
    let j := if i < 0 then i + cur.length else i
    if 0 ≤ j ∧ j < (cur.length : Int) then some j.toNat else none

/-- listLSet models ds/list LSet (lines 141-149): replace the element at
the normalised index when it is valid. -/
def listLSet (li : ListIdx) (k : Bytes) (i : Int) (v : Bytes) :
    Bool × ListIdx :=
  match lookupA li k with
  | none => (false, li)
  | some cur =>
    match listIndexPos cur i with
    | none => (false, li)
    | some j => (true, updA li k (cur.set j v))

/-- handleIndex models ds/list handleIndex (lines 357-375): shift
negative indexes by the length, clamp start at zero and end at
length - 1. -/
def handleIndex (length start stop : Int) : Int × Int :=
  let s0 := if start < 0 then start + length else start
  let e0 := if stop < 0 then stop + length else stop
  let s1 := if s0 < 0 then 0 else s0
  let e1 := if length ≤ e0 then length - 1 else e0
  (s1, e1)

/-- listLTrim models ds/list LTrim (lines 198-244): keep only the
elements between the normalised start and end; the code's two rebuild
branches both produce exactly that slice.  The empty-range branch parks
a nil list under the key, which behaves as an empty list. -/
def listLTrim (li : ListIdx) (k : Bytes) (start stop : Int) :
    Bool × ListIdx :=
  match lookupA li k with
  | none => (false, li)
  | some cur =>
    if cur.length = 0 then (false, li)
    else
      let len : Int := cur.length
      let se := handleIndex len start stop
      if se.1 ≤ 0 ∧ len - 1 ≤ se.2 then (false, li)
      else if se.2 < se.1 ∨ len ≤ se.1 then (true, updA li k [])
      else (true, updA li k ((cur.drop se.1.toNat).take
        (se.2 - se.1 + 1).toNat))

/-- sIsMember models ds/set SIsMember on the set index. -/
def sIsMember (si : SetIdx) (k m : Bytes) : Bool :=
  ((lookupA si k).getD []).any (fun x => x == m)

/-- sAdd adds a member to the set under the key.  Modelled from the
spec: the ds/set implementation is not under src/; section 3 specifies
the set index as a map from key to a set of byte values. -/
def sAdd (si : SetIdx) (k m : Bytes) : SetIdx :=
  let cur := (lookupA si k).getD []
  if cur.any (fun x => x == m) then si else updA si k (cur ++ [m])

/-- sRem removes a member, reporting whether it was present.  Modelled
from the spec: ds/set is not under src/. -/
def sRem (si : SetIdx) (k m : Bytes) : Bool × SetIdx :=
  match lookupA si k with
  | none => (false, si)
  | some cur =>
    if cur.any (fun x => x == m) then
      (true, updA si k (cur.filter (fun x => !(x == m))))
    else (false, si)

/-- sMove moves a member from src to dst when present.  Modelled from
the spec: ds/set is not under src/; section 4.5 gives SMove(dst). -/
def sMove (si : SetIdx) (src dst m : Bytes) : Bool × SetIdx :=
  let r := sRem si src m
  if r.1 then (true, sAdd r.2 dst m) else (false, si)

/-- sPop removes and returns count members of the set under the key.
Modelled from the spec: ds/set is not under src/; the spec's random
choice of members is resolved to the first count of them, and each
chosen member is removed from the set. -/
def sPop (si : SetIdx) (k : Bytes) (count : Nat) : List Bytes × SetIdx :=
  let members := ((lookupA si k).getD []).take count
  (members, members.foldl (fun s m => (sRem s k m).2) si)

/-- hSet stores field to value under the key.  Modelled from the spec:
the ds/hash implementation is not under src/; section 3 specifies the
hash index as key to a field-to-value mapping. -/
def hSet (hi : HashIdx) (k f v : Bytes) : HashIdx :=
  updA hi k (updA ((lookupA hi k).getD []) f v)

/-- hDel removes a field under the key.  Modelled from the spec: ds/hash
is not under src/. -/
def hDel (hi : HashIdx) (k f : Bytes) : HashIdx :=
  match lookupA hi k with
  | none => hi
  | some inner => updA hi k (removeA inner f)

/-- hGet looks a field up under the key.  Modelled from the spec: ds/hash
is not under src/. -/
def hGet (hi : HashIdx) (k f : Bytes) : Option Bytes :=
  (lookupA hi k).bind (fun inner => lookupA inner f)

/-- extraSep is ExtraSeparator, the two bytes of the Go literal
backslash-zero used between fields of a record's extra payload. -/
def extraSep : Bytes := [92, 48]

/-- hasSep models strings.Contains(s, ExtraSeparator). -/
def hasSep : Bytes → Bool
  | [] => false
  | 92 :: 48 :: _ => true
  | _ :: rest => hasSep rest

/-- splitSep models strings.Split(s, ExtraSeparator): the parts of s
between non-overlapping occurrences of the separator, scanned from the
left. -/
def splitSep : Bytes → List Bytes
  | [] => [[]]
  | 92 :: 48 :: rest => [] :: splitSep rest
  | b :: rest =>
    match splitSep rest with
    | [] => [[b]]
    | p :: ps => (b :: p) :: ps

/-- natDigits is the decimal digit string of a natural number, as
strconv.Itoa produces it. -/
def natDigits (n : Nat) : Bytes :=
  if _ : n < 10 then [48 + n] else natDigits (n / 10) ++ [48 + n % 10]
termination_by n
decreasing_by omega

/-- itoa models strconv.Itoa on the engine's int arguments. -/
def itoa (i : Int) : Bytes :=
  if i < 0 then 45 :: natDigits (-i).toNat else natDigits i.toNat

/-- parseNatDigits parses a non-empty all-digit byte string. -/
def parseNatDigits (bs : Bytes) : Option Nat :=
  if bs.isEmpty then none
  else if bs.all (fun b => 48 ≤ b && b ≤ 57) then
    some (bs.foldl (fun acc b => acc * 10 + (b - 48)) 0)
  else none

/-- parseInt models strconv.Atoi on the canonical digit strings the
engine itself writes (an optional minus sign followed by digits). -/
def parseInt (bs : Bytes) : Option Int :=
  match bs with
  | [] => none
  | b :: rest =>
    if b = 45 then (parseNatDigits rest).map (fun n => -(n : Int))
    else (parseNatDigits (b :: rest)).map (fun n => (n : Int))

/-- buildStringIndex models MinDB.buildStringIndex (src/unnamed/part_000
lines 63-79): skip keys whose deadline has passed, otherwise put or
remove the indexer in the skiplist. -/
def buildStringIndex (exp : Expires) (now : Nat) (strIdx : List Indexer)
    (idx : Indexer) (opt : Nat) : List Indexer :=
  if expired exp now idx.meta.key then strIdx
  else if opt = StringSet then skPut strIdx idx.meta.key idx
  else if opt = StringRem then (skRemove strIdx idx.meta.key).1
  else strIdx

/-- buildListIndex models MinDB.buildListIndex (part_000 lines 82-124):
dispatch on the mark, decoding counts, pivots, indexes and ranges from
the extra payload; a failed Atoi skips the operation except in LTrim,
where the error is discarded and zero is used. -/
def buildListIndex (li : ListIdx) (idx : Indexer) (opt : Nat) : ListIdx :=
  let key := idx.meta.key
  if opt = ListLPush then listPush true li key idx.meta.value
  else if opt = ListLPop then (listPop true li key).2
  else if opt = ListRPush then listPush false li key idx.meta.value
  else if opt = ListRPop then (listPop false li key).2
  else if opt = ListLRem then
    match parseInt idx.meta.extra with
    | some c => (listLRem li key idx.meta.value c).2
    | none => li
  else if opt = ListLInsert then
    match splitSep idx.meta.extra with
    | [pivot, optPart] =>
      match parseInt optPart with
      | some o => (listLInsert li key (o % 256).toNat pivot
          idx.meta.value).2
      | none => li
    | _ => li
  else if opt = ListLSet then
    match parseInt idx.meta.extra with
    | some i => (listLSet li key i idx.meta.value).2
    | none => li
  else if opt = ListLTrim then
    match splitSep idx.meta.extra with
    | [s0, s1] =>
      (listLTrim li key ((parseInt s0).getD 0) ((parseInt s1).getD 0)).2
    | _ => li
  else li

/-- buildHashIndex models MinDB.buildHashIndex (part_000 lines 127-140):
the extra payload is the field. -/
def buildHashIndex (hi : HashIdx) (idx : Indexer) (opt : Nat) : HashIdx :=
  if opt = HashHSet then hSet hi idx.meta.key idx.meta.extra idx.meta.value
  else if opt = HashHDel then hDel hi idx.meta.key idx.meta.extra
  else hi

/-- buildSetIndex models MinDB.buildSetIndex (part_000 lines 143-159):
for SMove the extra payload is the destination key. -/
def buildSetIndex (si : SetIdx) (idx : Indexer) (opt : Nat) : SetIdx :=
  if opt = SetSAdd then sAdd si idx.meta.key idx.meta.value
  else if opt = SetSRem then (sRem si idx.meta.key idx.meta.value).2
  else if opt = SetSMove then
    (sMove si idx.meta.key idx.meta.extra idx.meta.value).2
  else si

/-- buildZSetIndex models MinDB.buildZsetIndex (part_000 lines 162-177):
for ZAdd the extra payload is the score text, parsed back to a score —
a record whose score fails to parse is skipped; for ZRem the value is
the member to drop. -/
def buildZSetIndex (zi : ZSetIdx) (idx : Indexer) (opt : Nat) : ZSetIdx :=
  if opt = ZSetZAdd then
    match strToFloat64 idx.meta.extra with
    | some score => zAdd zi idx.meta.key score idx.meta.value
    | none => zi
  else if opt = ZSetZRem then zRem zi idx.meta.key idx.meta.value
  else zi

/-- Config models the engine configuration fields the claims need. -/
structure Config where
  blockSize : Nat
  maxKeySize : Nat
  maxValueSize : Nat
deriving Repr, DecidableEq

/-- Err models the mindb error values (src/mindb.go lines 19-39 and
storage.ErrEmptyEntry). -/
inductive Err where
  | emptyKey : Err
  | keyTooLarge : Err
  | valueTooLarge : Err
  | keyNotExist : Err
  | nilIndexer : Err
  | extraSepErr : Err
  | emptyEntry : Err
deriving Repr, DecidableEq

/-- checkKeyValue models MinDB.checkKeyValue (src/mindb.go lines
364-382): empty key, oversized key, then each value in order. -/
def checkKeyValue (cfg : Config) (key : Bytes) (values : List Bytes) :
    Option Err :=
  if key.length = 0 then some .emptyKey
  else if cfg.maxKeySize < key.length then some .keyTooLarge
  else if values.any (fun v => cfg.maxValueSize < v.length) then
    some .valueTooLarge
  else none

/-- DB models the engine state the claims touch: the per-kind segment
state and the four in-memory indexes, with the String index in
KeyValueRamMode (values held inline). -/
structure DB where
  strFiles : KindFiles
  listFiles : KindFiles
  hashFiles : KindFiles
  setFiles : KindFiles
  zsetFiles : KindFiles
  strIdx : List Indexer
  listIdx : ListIdx
  hashIdx : HashIdx
  setIdx : SetIdx
  zsetIdx : ZSetIdx
deriving Repr, DecidableEq

/-- emptyDB is the state of a freshly opened database over an empty
directory. -/
def emptyDB : DB :=
  { strFiles := emptyKindFiles, listFiles := emptyKindFiles,
    hashFiles := emptyKindFiles, setFiles := emptyKindFiles,
    zsetFiles := emptyKindFiles,
    strIdx := [], listIdx := [], hashIdx := [], setIdx := [],
    zsetIdx := [] }

/-- storeRes wraps storeK for ops that propagate the write error. -/
def storeRes (blockSize : Nat) (fs : KindFiles) (e : Entry) :
    KindFiles × Option Err :=
  match storeK blockSize fs e with
  | (fs1, some _) => (fs1, none)
  | (fs1, none) => (fs1, some .emptyEntry)

/-- enrichKV models the KeyValueRamMode branch of MinDB.buildIndex: copy
the record's value and its length into the indexer meta. -/
def enrichKV (idx : Indexer) (e : Entry) : Indexer :=
  let m := idx.meta
  { idx with
    meta := { m with value := e.meta.value,
                     valueSize := e.meta.value.length } }

/-- setOp models MinDB.Set (src/unnamed/part_001 lines 142-172) in
KeyValueRamMode: validate, append the StringSet record, build the
locator for the record's position and run it through buildIndex. -/
def setOp (cfg : Config) (exp : Expires) (now : Nat) (db : DB)
    (key value : Bytes) : DB × Option Err :=
  match checkKeyValue cfg key [value] with
  | some err => (db, some err)
  | none =>
    let e := newEntryNoExtra key value TString StringSet
    match storeK cfg.blockSize db.strFiles e with
    | (fs, none) => ({ db with strFiles := fs }, some .emptyEntry)
    | (fs, some _) =>
      let idx : Indexer :=
        { meta := { key := e.meta.key, value := [], extra := [],
                    keySize := e.meta.key.length, valueSize := 0,
                    extraSize := 0 },
          fileId := fs.activeId, entrySize := e.size,
          offset := fs.activeOffset - e.size }
      ({ db with strFiles := fs,
                 strIdx := buildStringIndex exp now db.strIdx
                   (enrichKV idx e) e.mark }, none)

/-- getOp models MinDB.Get (src/unnamed/part_001 lines 187-226) in
KeyValueRamMode: empty keys are rejected, a missing index node is
KeyNotExist, otherwise the inline value is returned.  The expiry table
is not consulted. -/
def getOp (db : DB) (key : Bytes) : Option Bytes × Option Err :=
  if key.length = 0 then (none, some .emptyKey)
  else
    match skGet db.strIdx key with
    | none => (none, some .keyNotExist)
    | some idx => (some idx.meta.value, none)

/-- strRemOp models MinDB.StrRem (part_001 lines 297-313): validate,
remove the key from the skiplist and, only when something was removed,
append a StringRem record. -/
def strRemOp (cfg : Config) (db : DB) (key : Bytes) : DB × Option Err :=
  match checkKeyValue cfg key [[]] with
  | some err => (db, some err)
  | none =>
    let r := skRemove db.strIdx key
    if r.2 then
      let e := newEntryNoExtra key [] TString StringRem
      let s := storeRes cfg.blockSize db.strFiles e
      ({ db with strIdx := r.1, strFiles := s.1 }, s.2)
    else (db, none)

/-- appendOp models MinDB.Append (part_001 lines 244-262): validate,
Get the current value — propagating its error — and Set the
concatenation (or the value alone when Get produced nil). -/
def appendOp (cfg : Config) (exp : Expires) (now : Nat) (db : DB)
    (key value : Bytes) : DB × Option Err :=
  match checkKeyValue cfg key [value] with
  | some err => (db, some err)
  | none =>
    match getOp db key with
    | (_, some err) => (db, some err)
    | (some old, none) => setOp cfg exp now db key (old ++ value)
    | (none, none) => setOp cfg exp now db key value

/-- pushLoop is the body of LPush/RPush (src/db_set.go lines 200-238):
per value, append the record and push into the list index. -/
def pushLoop (front : Bool) (blockSize : Nat) (fs : KindFiles)
    (li : ListIdx) (key : Bytes) : List Bytes → KindFiles × ListIdx
  | [] => (fs, li)
  | v :: vs =>
    let mark := if front then ListLPush else ListRPush
    let e := newEntryNoExtra key v TList mark
    pushLoop front blockSize (storeK blockSize fs e).1
      (listPush front li key v) key vs

/-- lpushOp models MinDB.LPush: validate then run the push loop. -/
def lpushOp (cfg : Config) (db : DB) (key : Bytes)
    (values : List Bytes) : DB × Option Err :=
  match checkKeyValue cfg key values with
  | some err => (db, some err)
  | none =>
    let r := pushLoop true cfg.blockSize db.listFiles db.listIdx key values
    ({ db with listFiles := r.1, listIdx := r.2 }, none)

/-- rpushOp models MinDB.RPush. -/
def rpushOp (cfg : Config) (db : DB) (key : Bytes)
    (values : List Bytes) : DB × Option Err :=
  match checkKeyValue cfg key values with
  | some err => (db, some err)
  | none =>
    let r := pushLoop false cfg.blockSize db.listFiles db.listIdx key values
    ({ db with listFiles := r.1, listIdx := r.2 }, none)

/-- lpopOp models MinDB.LPop (src/db_set.go lines 241-256): no input
validation; pop the head and only when a value came out append a
ListLPop record (whose store error is merely logged); the returned
error is always nil. -/
def lpopOp (cfg : Config) (db : DB) (key : Bytes) :
    DB × Option Bytes × Option Err :=
  let r := listPop true db.listIdx key
  match r.1 with
  | some v =>
    let e := newEntryNoExtra key v TList ListLPop
    ({ db with listIdx := r.2,
               listFiles := (storeK cfg.blockSize db.listFiles e).1 },
     some v, none)
  | none => ({ db with listIdx := r.2 }, none, none)

/-- rpopOp models MinDB.RPop (lines 259-274). -/
def rpopOp (cfg : Config) (db : DB) (key : Bytes) :
    DB × Option Bytes × Option Err :=
  let r := listPop false db.listIdx key
  match r.1 with
  | some v =>
    let e := newEntryNoExtra key v TList ListRPop
    ({ db with listIdx := r.2,
               listFiles := (storeK cfg.blockSize db.listFiles e).1 },
     some v, none)
  | none => ({ db with listIdx := r.2 }, none, none)

/-- lremOp models MinDB.LRem (lines 290-307): no input validation;
mutate the index and append a record carrying the decimal count only
when something was removed. -/
def lremOp (cfg : Config) (db : DB) (key value : Bytes) (count : Int) :
    DB × Nat × Option Err :=
  let r := listLRem db.listIdx key value count
  if 0 < r.1 then
    let e := newEntry key value (itoa count) TList ListLRem
    let s := storeRes cfg.blockSize db.listFiles e
    ({ db with listIdx := r.2, listFiles := s.1 }, r.1, s.2)
  else ({ db with listIdx := r.2 }, r.1, none)

/-- linsertOp models MinDB.LInsert (lines 309-337): validate key and
value, reject a pivot containing the separator, mutate the index and,
when the pivot was found, append a record whose extra payload is
pivot, separator, decimal option. -/
def linsertOp (cfg : Config) (db : DB) (key : Bytes) (option : Nat)
    (pivot val : Bytes) : DB × Option Err :=
  match checkKeyValue cfg key [val] with
  | some err => (db, some err)
  | none =>
    if hasSep pivot then (db, some .extraSepErr)
    else
      let o := option % 256
      let r := listLInsert db.listIdx key o pivot val
      if r.1 = -1 then ({ db with listIdx := r.2 }, none)
      else
        let extra := pivot ++ extraSep ++ itoa (o : Int)
        let e := newEntry key val extra TList ListLInsert
        let s := storeRes cfg.blockSize db.listFiles e
        ({ db with listIdx := r.2, listFiles := s.1 }, s.2)

/-- lsetOp models MinDB.LSet (lines 339-357): validate, mutate and, when
the index was valid, append a record carrying the decimal index. -/
def lsetOp (cfg : Config) (db : DB) (key : Bytes) (i : Int)
    (val : Bytes) : DB × Option Err :=
  match checkKeyValue cfg key [val] with
  | some err => (db, some err)
  | none =>
    let r := listLSet db.listIdx key i val
    if r.1 then
      let e := newEntry key val (itoa i) TList ListLSet
      let s := storeRes cfg.blockSize db.listFiles e
      ({ db with listIdx := r.2, listFiles := s.1 }, s.2)
    else ({ db with listIdx := r.2 }, none)

/-- ltrimOp models MinDB.LTrim (lines 359-377): no input validation;
when the trim changed the list, append a record whose extra payload is
decimal start, separator, decimal end. -/
def ltrimOp (cfg : Config) (db : DB) (key : Bytes) (start stop : Int) :
    DB × Option Err :=
  let r := listLTrim db.listIdx key start stop
  if r.1 then
    let extra := itoa start ++ extraSep ++ itoa stop
    let e := newEntry key [] extra TList ListLTrim
    let s := storeRes cfg.blockSize db.listFiles e
    ({ db with listIdx := r.2, listFiles := s.1 }, s.2)
  else ({ db with listIdx := r.2 }, none)

/-- saddLoop is the body of SAdd (src/db_set.go lines 22-41): per
member, append the record then add to the set index. -/
def saddLoop (blockSize : Nat) (fs : KindFiles) (si : SetIdx)
    (key : Bytes) : List Bytes → KindFiles × SetIdx
  | [] => (fs, si)
  | m :: ms =>
    let e := newEntryNoExtra key m TSet SetSAdd
    saddLoop blockSize (storeK blockSize fs e).1 (sAdd si key m) key ms

/-- saddOp models MinDB.SAdd: validate members then run the loop. -/
def saddOp (cfg : Config) (db : DB) (key : Bytes)
    (members : List Bytes) : DB × Option Err :=
  match checkKeyValue cfg key members with
  | some err => (db, some err)
  | none =>
    let r := saddLoop cfg.blockSize db.setFiles db.setIdx key members
    ({ db with setFiles := r.1, setIdx := r.2 }, none)

/-- sremLoop is the body of SRem (lines 87-107): per member, remove from
the index and only on success append a SetSRem record. -/
def sremLoop (blockSize : Nat) (fs : KindFiles) (si : SetIdx)
    (key : Bytes) : List Bytes → KindFiles × SetIdx
  | [] => (fs, si)
  | m :: ms =>
    let r := sRem si key m
    if r.1 then
      let e := newEntryNoExtra key m TSet SetSRem
      sremLoop blockSize (storeK blockSize fs e).1 r.2 key ms
    else sremLoop blockSize fs r.2 key ms

/-- sremOp models MinDB.SRem: validate members then run the loop. -/
def sremOp (cfg : Config) (db : DB) (key : Bytes)
    (members : List Bytes) : DB × Option Err :=
  match checkKeyValue cfg key members with
  | some err => (db, some err)
  | none =>
    let r := sremLoop cfg.blockSize db.setFiles db.setIdx key members
    ({ db with setFiles := r.1, setIdx := r.2 }, none)

/-- smoveOp models MinDB.SMove (lines 110-123): no input validation;
move in the index and on success append a record whose extra payload is
the destination key. -/
def smoveOp (cfg : Config) (db : DB) (src dst member : Bytes) :
    DB × Option Err :=
  let r := sMove db.setIdx src dst member
  if r.1 then
    let e := newEntry src member dst TSet SetSMove
    let s := storeRes cfg.blockSize db.setFiles e
    ({ db with setIdx := r.2, setFiles := s.1 }, s.2)
  else ({ db with setIdx := r.2 }, none)

/-- hsetOp appends an HSet record and stores field to value.  Modelled
from the spec: the hash operation file is not under src/; sections 4.4
and 4.5 give validate, append (Hash, HSet) with the field as extra,
then mutate the hash index. -/
def hsetOp (cfg : Config) (db : DB) (key field value : Bytes) :
    DB × Option Err :=
  match checkKeyValue cfg key [value] with
  | some err => (db, some err)
  | none =>
    let e := newEntry key value field THash HashHSet
    let s := storeRes cfg.blockSize db.hashFiles e
    ({ db with hashFiles := s.1,
               hashIdx := hSet db.hashIdx key field value }, s.2)

/-- hdelOp appends an HDel record and removes the field.  Modelled from
the spec: the hash operation file is not under src/. -/
def hdelOp (cfg : Config) (db : DB) (key field : Bytes) :
    DB × Option Err :=
  match checkKeyValue cfg key [[]] with
  | some err => (db, some err)
  | none =>
    let e := newEntry key [] field THash HashHDel
    let s := storeRes cfg.blockSize db.hashFiles e
    ({ db with hashFiles := s.1,
               hashIdx := hDel db.hashIdx key field }, s.2)

/-- strExists models MinDB.StrExists (part_001 lines 283-293): false on
an invalid key, otherwise membership in the skiplist. -/
def strExists (cfg : Config) (db : DB) (key : Bytes) : Bool :=
  match checkKeyValue cfg key [[]] with
  | some _ => false
  | none => (skGet db.strIdx key).isSome

/-- setNxOp models MinDB.SetNx (part_001 lines 174-184): do nothing when
the key exists, otherwise Set. -/
def setNxOp (cfg : Config) (exp : Expires) (now : Nat) (db : DB)
    (key value : Bytes) : DB × Option Err :=
  if strExists cfg db key then (db, none)
  else setOp cfg exp now db key value

/-- spopStores is the store loop of MinDB.SPop (src/db_set.go lines
54-59): one SetSRem record per popped value. -/
def spopStores (bs : Nat) (fs : KindFiles) (key : Bytes) :
    List Bytes → KindFiles
  | [] => fs
  | v :: vs =>
    spopStores bs (storeK bs fs (newEntryNoExtra key v TSet SetSRem)).1
      key vs

/-- spopOp models MinDB.SPop (db_set.go lines 44-62): validate the key,
pop count members from the set index and append a SetSRem record for
each of them. -/
def spopOp (cfg : Config) (db : DB) (key : Bytes) (count : Nat) :
    DB × List Bytes × Option Err :=
  match checkKeyValue cfg key [[]] with
  | some err => (db, [], some err)
  | none =>
    let r := sPop db.setIdx key count
    ({ db with setIdx := r.2,
               setFiles := spopStores cfg.blockSize db.setFiles key r.1 },
     r.1, none)

/-- zaddOp appends a ZSetZAdd record whose extra payload is the score
text and stores member to score.  Modelled from the spec: the zset
operation file is not under src/; sections 4.4-4.5 and 6 give validate,
append (ZSet, ZAdd) with the formatted score as extra, then mutate the
zset index. -/
def zaddOp (cfg : Config) (db : DB) (key : Bytes) (score : Score)
    (member : Bytes) : DB × Option Err :=
  match checkKeyValue cfg key [member] with
  | some err => (db, some err)
  | none =>
    let e := newEntry key member (float64ToStr score) TZSet ZSetZAdd
    let s := storeRes cfg.blockSize db.zsetFiles e
    ({ db with zsetFiles := s.1,
               zsetIdx := zAdd db.zsetIdx key score member }, s.2)

/-- zremOp appends a ZSetZRem record and removes the member.  Modelled
from the spec: the zset operation file is not under src/. -/
def zremOp (cfg : Config) (db : DB) (key member : Bytes) :
    DB × Option Err :=
  match checkKeyValue cfg key [member] with
  | some err => (db, some err)
  | none =>
    let e := newEntryNoExtra key member TZSet ZSetZRem
    let s := storeRes cfg.blockSize db.zsetFiles e
    ({ db with zsetFiles := s.1,
               zsetIdx := zRem db.zsetIdx key member }, s.2)

/-- Op is the language of mutating engine operations the recovery claim
ranges over: the twenty mutating calls of spec section 4.4. -/
inductive Op where
  | set : Bytes → Bytes → Op
  | setNx : Bytes → Bytes → Op
  | append : Bytes → Bytes → Op
  | strRem : Bytes → Op
  | lpush : Bytes → List Bytes → Op
  | rpush : Bytes → List Bytes → Op
  | lpop : Bytes → Op
  | rpop : Bytes → Op
  | lrem : Bytes → Bytes → Int → Op
  | linsert : Bytes → Nat → Bytes → Bytes → Op
  | lset : Bytes → Int → Bytes → Op
  | ltrim : Bytes → Int → Int → Op
  | sadd : Bytes → List Bytes → Op
  | srem : Bytes → List Bytes → Op
  | spop : Bytes → Nat → Op
  | smove : Bytes → Bytes → Bytes → Op
  | hset : Bytes → Bytes → Bytes → Op
  | hdel : Bytes → Bytes → Op
  | zadd : Bytes → Score → Bytes → Op
  | zrem : Bytes → Bytes → Op
deriving Repr, DecidableEq

/-- applyOp runs one mutating operation, keeping only the state. -/
def applyOp (cfg : Config) (exp : Expires) (now : Nat) (db : DB) :
    Op → DB
  | .set k v => (setOp cfg exp now db k v).1
  | .setNx k v => (setNxOp cfg exp now db k v).1
  | .append k v => (appendOp cfg exp now db k v).1
  | .strRem k => (strRemOp cfg db k).1
  | .lpush k vs => (lpushOp cfg db k vs).1
  | .rpush k vs => (rpushOp cfg db k vs).1
  | .lpop k => (lpopOp cfg db k).1
  | .rpop k => (rpopOp cfg db k).1
  | .lrem k v c => (lremOp cfg db k v c).1
  | .linsert k o p v => (linsertOp cfg db k o p v).1
  | .lset k i v => (lsetOp cfg db k i v).1
  | .ltrim k s e => (ltrimOp cfg db k s e).1
  | .sadd k ms => (saddOp cfg db k ms).1
  | .srem k ms => (sremOp cfg db k ms).1
  | .spop k c => (spopOp cfg db k c).1
  | .smove s d m => (smoveOp cfg db s d m).1
  | .hset k f v => (hsetOp cfg db k f v).1
  | .hdel k f => (hdelOp cfg db k f).1
  | .zadd k s m => (zaddOp cfg db k s m).1
  | .zrem k m => (zremOp cfg db k m).1

/-- runOps executes a sequence of mutating operations from a state. -/
def runOps (cfg : Config) (exp : Expires) (now : Nat) (db : DB)
    (ops : List Op) : DB :=
  ops.foldl (applyOp cfg exp now) db

/-- indexerOfRec models the locator loadIdxFromFiles builds for a
replayed record (part_000 lines 203-208). -/
def indexerOfRec (fid off : Nat) (e : Entry) : Indexer :=
  { meta := e.meta, fileId := fid, entrySize := e.size, offset := off }

/-- applyRecStr replays one logged String record through buildIndex, as
loadIdxFromFiles does at the time of reopening. -/
def applyRecStr (exp : Expires) (now : Nat) (strIdx : List Indexer)
    (r : Nat × Nat × Entry) : List Indexer :=
  buildStringIndex exp now strIdx
    (enrichKV (indexerOfRec r.1 r.2.1 r.2.2) r.2.2) r.2.2.mark

/-- applyRecList replays one logged List record through buildIndex. -/
def applyRecList (li : ListIdx) (r : Nat × Nat × Entry) : ListIdx :=
  buildListIndex li (enrichKV (indexerOfRec r.1 r.2.1 r.2.2) r.2.2)
    r.2.2.mark

/-- applyRecHash replays one logged Hash record through buildIndex. -/
def applyRecHash (hi : HashIdx) (r : Nat × Nat × Entry) : HashIdx :=
  buildHashIndex hi (enrichKV (indexerOfRec r.1 r.2.1 r.2.2) r.2.2)
    r.2.2.mark

/-- applyRecSet replays one logged Set record through buildIndex. -/
def applyRecSet (si : SetIdx) (r : Nat × Nat × Entry) : SetIdx :=
  buildSetIndex si (enrichKV (indexerOfRec r.1 r.2.1 r.2.2) r.2.2)
    r.2.2.mark

/-- applyRecZSet replays one logged ZSet record through buildIndex. -/
def applyRecZSet (zi : ZSetIdx) (r : Nat × Nat × Entry) : ZSetIdx :=
  buildZSetIndex zi (enrichKV (indexerOfRec r.1 r.2.1 r.2.2) r.2.2)
    r.2.2.mark

/-- recoverStr replays a kind's log (its segments in ascending file-id
order, each scanned from offset 0) into an empty String index. -/
def recoverStr (exp : Expires) (now : Nat)
    (log : List (Nat × Nat × Entry)) : List Indexer :=
  log.foldl (applyRecStr exp now) []

/-- recoverList replays the List log into an empty list index. -/
def recoverList (log : List (Nat × Nat × Entry)) : ListIdx :=
  log.foldl applyRecList []

/-- recoverHash replays the Hash log into an empty hash index. -/
def recoverHash (log : List (Nat × Nat × Entry)) : HashIdx :=
  log.foldl applyRecHash []

/-- recoverSet replays the Set log into an empty set index. -/
def recoverSet (log : List (Nat × Nat × Entry)) : SetIdx :=
  log.foldl applyRecSet []

/-- recoverZSet replays the ZSet log into an empty zset index. -/
def recoverZSet (log : List (Nat × Nat × Entry)) : ZSetIdx :=
  log.foldl applyRecZSet []

/-- filterUnexpired elides the String keys whose deadline has passed. -/
def filterUnexpired (exp : Expires) (now : Nat) (l : List Indexer) :
    List Indexer :=
  l.filter (fun i => !(expired exp now i.meta.key))

/-- validEntryString models the String case of MinDB.validEntry
(src/mindb.go lines 476-504): a StringSet record is live when its key
is not expired and the in-memory locator for the key points to exactly
this (file id, offset); every other mark falls through to false. -/
def validEntryString (exp : Expires) (now : Nat) (strIdx : List Indexer)
    (e : Entry) (offset : Nat) (fileId : Nat) : Bool :=
  if e.mark = StringSet then
    if expired exp now e.meta.key then false
    else
      match skGet strIdx e.meta.key with
      | none => false
      | some indexer =>
        if indexer.meta.key == e.meta.key then
          indexer.fileId == fileId && indexer.offset == offset
        else false
  else false

/-- offsetsOfAux pairs each record of a scanned segment with its offset,
starting from the given offset. -/
def offsetsOfAux (off : Nat) : List Entry → List (Nat × Entry)
  | [] => []
  | e :: t => (off, e) :: offsetsOfAux (off + e.size) t

/-- RFile models one rewritten segment produced by Reclaim: its id, its
write offset and its records. -/
structure RFile where
  id : Nat
  offset : Nat
  entries : List Entry
deriving Repr, DecidableEq

/-- RState is the state of the String goroutine of MinDB.Reclaim: the
open rewrite segment, the next id counter, the finished segments and the
String index being updated. -/
structure RState where
  df : Option RFile
  fileId : Nat
  archFiles : List RFile
  strIdx : List Indexer
deriving Repr, DecidableEq

/-- reclaimWriteOne models one iteration of the rewrite loop of
MinDB.Reclaim (src/mindb.go lines 283-308) for the String kind: open a
fresh segment when none is open or the record does not fit (incrementing
the id counter after registering the new segment), append the record,
then redirect the key's locator to offset df.Offset minus the record
size and to file id equal to the current counter — the counter, not the
id of the segment just written, which is one less. -/
def reclaimWriteOne (blockSize : Nat) (st : RState) (e : Entry) :
    RState :=
  let st1 :=
    match st.df with
    | none =>
      { st with df := some ⟨st.fileId, 0, []⟩, fileId := st.fileId + 1 }
    | some df =>
      if blockSize < e.size + df.offset then
        { st with df := some ⟨st.fileId, 0, []⟩, fileId := st.fileId + 1,
                  archFiles := st.archFiles ++ [df] }
      else st
  match st1.df with
  | none => st1
  | some df =>
    let df' : RFile := ⟨df.id, df.offset + e.size, df.entries ++ [e]⟩
    let strIdx' :=
      match skGet st1.strIdx e.meta.key with
      | none => st1.strIdx
      | some idx =>
        skPut st1.strIdx idx.meta.key
          { idx with offset := df'.offset - e.size, fileId := st1.fileId }
    { st1 with df := some df', strIdx := strIdx' }

/-- reclaimString models the String goroutine of MinDB.Reclaim over the
kind's archived segments (each given as its id and its records): scan
each segment, keep the records validEntry accepts against the current
index, rewrite them, and finally account the still-open segment among
the produced ones. -/
def reclaimString (blockSize : Nat) (exp : Expires) (now : Nat)
    (strIdx : List Indexer) (files : List (Nat × List Entry)) : RState :=
  let final := files.foldl (fun st file =>
    let valid := (offsetsOfAux 0 file.2).filter
      (fun oe => validEntryString exp now st.strIdx oe.2 oe.1 file.1)
    (valid.map Prod.snd).foldl (reclaimWriteOne blockSize) st)
    ⟨none, 0, [], strIdx⟩
  match final.df with
  | none => final
  | some df => { final with archFiles := final.archFiles ++ [df],
                            df := none }

/-- psSkip models the offset-skipping loop of MinDB.PrefixScan
(part_001 lines 333-337): advance while the budget lasts, the chain is
non-empty and the key still matches the prefix. -/
def psSkip (p : Bytes) : Nat → List Indexer → List Indexer
  | 0, l => l
  | _ + 1, [] => []
  | n + 1, i :: t => if isPfx p i.meta.key then psSkip p n t else i :: t

/-- psLoop models the collection loop of MinDB.PrefixScan (lines
339-360) in KeyValueRamMode: collect inline values while the key
matches and the limit is non-zero, decrementing only positive limits. -/
def psLoop (p : Bytes) : List Indexer → Int → List Bytes
  | [], _ => []
  | i :: t, limit =>
    if limit ≠ 0 ∧ isPfx p i.meta.key then
      i.meta.value :: psLoop p t (if 0 < limit then limit - 1 else limit)
    else []

/-- prefixScan models MinDB.PrefixScan (part_001 lines 318-362) in
KeyValueRamMode: zero limit returns nothing, a negative offset is
clamped to zero, the prefix is validated as a key, and the skip loop
runs only when the limit is positive. -/
def prefixScan (cfg : Config) (db : DB) (p : Bytes)
    (limit offset : Int) : List Bytes × Option Err :=
  if limit = 0 then ([], none)
  else
    let off := if offset < 0 then 0 else offset
    match checkKeyValue cfg p [[]] with
    | some err => ([], some err)
    | none =>
      let start := findPfx db.strIdx p
      let start1 := if 0 < limit then psSkip p off.toNat start else start
      (psLoop p start1 limit, none)

/-- zeroEntry is the record decoded from a zero-filled 20-byte header:
every header field zero, in particular key_size 0, and empty payloads. -/
def zeroEntry : Entry := decode (List.replicate 20 0)

/-- SortedIdx states that the String index is strictly sorted by key in
bytes.Compare order, the skiplist invariant. -/
def SortedIdx (l : List Indexer) : Prop :=
  l.Pairwise (fun a b => blt a.meta.key b.meta.key = true)

/-- ReplayInv relates a live engine state to the state recovery rebuilds
at time nowR from the same logs: the replayed String index is the live
one with the keys expired at nowR elided, the other indexes replay to
exactly the live ones, and the live String index is sorted. -/
def ReplayInv (exp : Expires) (nowR : Nat) (db : DB) : Prop :=
  recoverStr exp nowR db.strFiles.log = filterUnexpired exp nowR db.strIdx
  ∧ recoverList db.listFiles.log = db.listIdx
  ∧ recoverHash db.hashFiles.log = db.hashIdx
  ∧ recoverSet db.setFiles.log = db.setIdx
  ∧ recoverZSet db.zsetFiles.log = db.zsetIdx
  ∧ SortedIdx db.strIdx

/-- decEqExcept decides equality of Except results with decidable
components. -/
instance decEqExcept {ε α : Type} [DecidableEq ε] [DecidableEq α] :
    DecidableEq (Except ε α) := fun a b =>
  match a, b with
  | .ok x, .ok y =>
    if h : x = y then isTrue (by rw [h])
    else isFalse (fun hh => h (Except.ok.inj hh))
  | .error x, .error y =>
    if h : x = y then isTrue (by rw [h])
    else isFalse (fun hh => h (Except.error.inj hh))
  | .ok _, .error _ => isFalse (fun hh => Except.noConfusion hh)
  | .error _, .ok _ => isFalse (fun hh => Except.noConfusion hh)

/-- keyedOp marks an operation whose key arguments are non-empty on the
paths that skip checkKeyValue: the keys of the pops, LRem and LTrim and
the source key of SMove.  Validated operations are always keyed. -/
def keyedOp : Op → Bool
  | .lpop k => !k.isEmpty
  | .rpop k => !k.isEmpty
  | .lrem k _ _ => !k.isEmpty
  | .ltrim k _ _ => !k.isEmpty
  | .smove s _ _ => !s.isEmpty
  | _ => true

theorem xor_lt_32 (a b : Nat) (ha : a < 4294967296)
    (hb : b < 4294967296) : a ^^^ b < 4294967296 := by
  have e : (2 : Nat) ^ 32 = 4294967296 := by norm_num
  rw [← e] at ha hb ⊢
  exact Nat.xor_lt_two_pow ha hb

theorem crc32Round_lt (c : Nat) (h : c < 4294967296) :
    crc32Round c < 4294967296 := by
  unfold crc32Round
  split
  · exact xor_lt_32 _ _ (by omega) (by norm_num)
  · omega

theorem crc32_iterate_lt (k c : Nat) (h : c < 4294967296) :
    Nat.iterate crc32Round k c < 4294967296 := by
  induction k generalizing c with
  | zero => simpa using h
  | succ n ih =>
    rw [Function.iterate_succ_apply]
    exact ih _ (crc32Round_lt _ h)

theorem crc32Byte_lt (c b : Nat) (h : c < 4294967296) :
    crc32Byte c b < 4294967296 := by
  unfold crc32Byte
  refine crc32_iterate_lt _ _ (xor_lt_32 _ _ h ?_)
  have := Nat.mod_lt b (y := 256) (by norm_num)
  omega

theorem crc32_foldl_lt (data : Bytes) (c : Nat) (h : c < 4294967296) :
    data.foldl crc32Byte c < 4294967296 := by
  induction data generalizing c with
  | nil => simpa using h
  | cons x t ih => exact ih _ (crc32Byte_lt _ _ h)

theorem crc32_lt (data : Bytes) : crc32 data < 4294967296 := by
  unfold crc32
  exact xor_lt_32 _ _ (crc32_foldl_lt _ _ (by norm_num)) (by norm_num)

theorem setBytes_zero (l src : Bytes) :
    setBytes l 0 src = src ++ l.drop src.length := by
  simp [setBytes]

theorem setBytes_append_left (pre rest src : Bytes) (off : Nat)
    (h : pre.length ≤ off) :
    setBytes (pre ++ rest) off src =
      pre ++ setBytes rest (off - pre.length) src := by
  unfold setBytes
  have ht : (pre ++ rest).take off = pre ++ rest.take (off - pre.length) := by
    rw [List.take_append_eq_append_take, List.take_of_length_le h]
  have hd : (pre ++ rest).drop (off + src.length) =
      rest.drop (off - pre.length + src.length) := by
    rw [List.drop_append_eq_append_drop,
      List.drop_eq_nil_iff.mpr (by omega), List.nil_append]
    congr 1
    omega
  rw [ht, hd, List.append_assoc]
  simp [List.append_assoc]

theorem getD_shift (pre l : Bytes) (i k : Nat) (h : i = pre.length + k) :
    (pre ++ l).getD i 0 = l.getD k 0 := by
  subst h
  rw [List.getD_append_right _ _ _ _ (by omega)]
  congr 1
  omega

theorem readBuf_standard_at (data pre mid rest : Bytes) (off n : Nat)
    (hdata : data = pre ++ mid ++ rest) (hoff : off = pre.length)
    (hn : n = mid.length) :
    readBuf .standard data off n = some mid := by
  subst hdata hoff hn
  have hlen : pre.length + mid.length ≤ (pre ++ mid ++ rest).length := by
    simp only [List.length_append]
    omega
  simp only [readBuf, if_pos hlen]
  rw [List.append_assoc, List.drop_left, List.take_left]

theorem getU32_at (data pre rest : Bytes) (i n : Nat)
    (hdata : data = pre ++ beU32 n ++ rest) (hi : i = pre.length)
    (hn : n < 4294967296) :
    getU32 data i = n := by
  subst hdata hi
  unfold getU32
  rw [List.append_assoc,
    getD_shift (pre) _ _ 0 (by omega), getD_shift (pre) _ _ 1 (by omega),
    getD_shift (pre) _ _ 2 (by omega), getD_shift (pre) _ _ 3 (by omega)]
  simp [beU32]
  omega

theorem getU16_at (data pre rest : Bytes) (i n : Nat)
    (hdata : data = pre ++ beU16 n ++ rest) (hi : i = pre.length)
    (hn : n < 65536) :
    getU16 data i = n := by
  subst hdata hi
  unfold getU16
  rw [List.append_assoc,
    getD_shift (pre) _ _ 0 (by omega), getD_shift (pre) _ _ 1 (by omega)]
  simp [beU16]
  omega

theorem write_step (done : Bytes) (z : Nat) (src : Bytes) (off : Nat)
    (hoff : off = done.length) (hz : src.length ≤ z) :
    setBytes (done ++ List.replicate z 0) off src =
      (done ++ src) ++ List.replicate (z - src.length) 0 := by
  subst hoff
  rw [setBytes_append_left _ _ _ _ (le_refl _), Nat.sub_self, setBytes_zero]
  simp [List.append_assoc]

theorem encode_eq_concat (e : Entry)
    (h1 : e.meta.keySize = e.meta.key.length)
    (h2 : e.meta.valueSize = e.meta.value.length)
    (h3 : e.meta.extraSize = e.meta.extra.length)
    (h4 : 0 < e.meta.keySize) :
    e.encode = some (beU32 (crc32 e.meta.value) ++ beU32 e.meta.keySize ++
      beU32 e.meta.valueSize ++ beU32 e.meta.extraSize ++ beU16 e.typ ++
      beU16 e.mark ++ e.meta.key ++ e.meta.value ++ e.meta.extra) := by
  have hsize : e.size = 20 + e.meta.key.length + e.meta.value.length +
      e.meta.extra.length := by
    simp [Entry.size, entryHeaderSize, h1, h2, h3]
  unfold Entry.encode
  rw [if_neg (by omega)]
  simp only [hsize, h1, h2, h3, List.take_length]
  set K := e.meta.key.length with hK
  set V := e.meta.value.length with hV
  set E := e.meta.extra.length with hE
  have b1 : setBytes (List.replicate (20 + K + V + E) (0 : Nat)) 4
      (beU32 K) = (List.replicate 4 0 ++ beU32 K) ++
      List.replicate (12 + K + V + E) 0 := by
    rw [show 20 + K + V + E = 4 + (16 + K + V + E) from by omega,
      List.replicate_add,
      write_step _ _ _ _ (by simp only [beU32, beU16, entryHeaderSize, hK, hV, hE, List.length_append, List.length_cons, List.length_nil, List.length_replicate] <;> omega) (by simp only [beU32, beU16, entryHeaderSize, hK, hV, hE, List.length_append, List.length_cons, List.length_nil, List.length_replicate] <;> omega)]
    congr 2
    simp only [beU32, beU16, entryHeaderSize, hK, hV, hE, List.length_append, List.length_cons, List.length_nil, List.length_replicate] <;> omega
  have b2 : setBytes ((List.replicate 4 0 ++ beU32 K) ++
      List.replicate (12 + K + V + E) 0) 8 (beU32 V) =
      ((List.replicate 4 0 ++ beU32 K) ++ beU32 V) ++
      List.replicate (8 + K + V + E) 0 := by
    rw [write_step _ _ _ _ (by simp [beU32]) (by simp only [beU32, beU16, entryHeaderSize, hK, hV, hE, List.length_append, List.length_cons, List.length_nil, List.length_replicate] <;> omega)]
    congr 2
    simp only [beU32, beU16, entryHeaderSize, hK, hV, hE, List.length_append, List.length_cons, List.length_nil, List.length_replicate] <;> omega
  have b3 : setBytes (((List.replicate 4 0 ++ beU32 K) ++ beU32 V) ++
      List.replicate (8 + K + V + E) 0) 12 (beU32 E) =
      (((List.replicate 4 0 ++ beU32 K) ++ beU32 V) ++ beU32 E) ++
      List.replicate (4 + K + V + E) 0 := by
    rw [write_step _ _ _ _ (by simp [beU32]) (by simp only [beU32, beU16, entryHeaderSize, hK, hV, hE, List.length_append, List.length_cons, List.length_nil, List.length_replicate] <;> omega)]
    congr 2
    simp only [beU32, beU16, entryHeaderSize, hK, hV, hE, List.length_append, List.length_cons, List.length_nil, List.length_replicate] <;> omega
  have b4 : setBytes ((((List.replicate 4 0 ++ beU32 K) ++ beU32 V) ++
      beU32 E) ++ List.replicate (4 + K + V + E) 0) 16 (beU16 e.typ) =
      ((((List.replicate 4 0 ++ beU32 K) ++ beU32 V) ++ beU32 E) ++
      beU16 e.typ) ++ List.replicate (2 + K + V + E) 0 := by
    rw [write_step _ _ _ _ (by simp [beU32]) (by simp only [beU32, beU16, entryHeaderSize, hK, hV, hE, List.length_append, List.length_cons, List.length_nil, List.length_replicate] <;> omega)]
    congr 2
    simp only [beU32, beU16, entryHeaderSize, hK, hV, hE, List.length_append, List.length_cons, List.length_nil, List.length_replicate] <;> omega
  have b5 : setBytes (((((List.replicate 4 0 ++ beU32 K) ++ beU32 V) ++
      beU32 E) ++ beU16 e.typ) ++ List.replicate (2 + K + V + E) 0) 18
      (beU16 e.mark) =
      (((((List.replicate 4 0 ++ beU32 K) ++ beU32 V) ++ beU32 E) ++
      beU16 e.typ) ++ beU16 e.mark) ++ List.replicate (K + V + E) 0 := by
    rw [write_step _ _ _ _ (by simp [beU32, beU16]) (by simp only [beU32, beU16, entryHeaderSize, hK, hV, hE, List.length_append, List.length_cons, List.length_nil, List.length_replicate] <;> omega)]
    congr 2
    simp only [beU32, beU16, entryHeaderSize, hK, hV, hE, List.length_append, List.length_cons, List.length_nil, List.length_replicate] <;> omega
  have b6 : setBytes ((((((List.replicate 4 0 ++ beU32 K) ++ beU32 V) ++
      beU32 E) ++ beU16 e.typ) ++ beU16 e.mark) ++
      List.replicate (K + V + E) 0) entryHeaderSize e.meta.key =
      ((((((List.replicate 4 0 ++ beU32 K) ++ beU32 V) ++ beU32 E) ++
      beU16 e.typ) ++ beU16 e.mark) ++ e.meta.key) ++
      List.replicate (V + E) 0 := by
    rw [write_step _ _ _ _ (by simp [beU32, beU16, entryHeaderSize])
      (by simp only [beU32, beU16, entryHeaderSize, hK, hV, hE, List.length_append, List.length_cons, List.length_nil, List.length_replicate] <;> omega)]
    congr 2
    simp only [beU32, beU16, entryHeaderSize, hK, hV, hE, List.length_append, List.length_cons, List.length_nil, List.length_replicate] <;> omega
  have b7 : setBytes (((((((List.replicate 4 0 ++ beU32 K) ++ beU32 V) ++
      beU32 E) ++ beU16 e.typ) ++ beU16 e.mark) ++ e.meta.key) ++
      List.replicate (V + E) 0) (entryHeaderSize + K) e.meta.value =
      (((((((List.replicate 4 0 ++ beU32 K) ++ beU32 V) ++ beU32 E) ++
      beU16 e.typ) ++ beU16 e.mark) ++ e.meta.key) ++ e.meta.value) ++
      List.replicate E 0 := by
    rw [write_step _ _ _ _
      (by simp only [beU32, beU16, entryHeaderSize, hK, hV, hE, List.length_append, List.length_cons, List.length_nil, List.length_replicate] <;> omega)
      (by simp only [beU32, beU16, entryHeaderSize, hK, hV, hE, List.length_append, List.length_cons, List.length_nil, List.length_replicate] <;> omega)]
    congr 2
    simp only [beU32, beU16, entryHeaderSize, hK, hV, hE, List.length_append, List.length_cons, List.length_nil, List.length_replicate] <;> omega
  have b8 : setBytes ((((((((List.replicate 4 0 ++ beU32 K) ++ beU32 V) ++
      beU32 E) ++ beU16 e.typ) ++ beU16 e.mark) ++ e.meta.key) ++
      e.meta.value) ++ List.replicate E 0) (entryHeaderSize + K + V)
      e.meta.extra =
      ((((((((List.replicate 4 0 ++ beU32 K) ++ beU32 V) ++ beU32 E) ++
      beU16 e.typ) ++ beU16 e.mark) ++ e.meta.key) ++ e.meta.value) ++
      e.meta.extra) ++ List.replicate 0 0 := by
    rw [write_step _ _ _ _
      (by simp only [beU32, beU16, entryHeaderSize, hK, hV, hE, List.length_append, List.length_cons, List.length_nil, List.length_replicate] <;> omega)
      (by simp only [beU32, beU16, entryHeaderSize, hK, hV, hE, List.length_append, List.length_cons, List.length_nil, List.length_replicate] <;> omega)]
    congr 2
    simp only [beU32, beU16, entryHeaderSize, hK, hV, hE, List.length_append, List.length_cons, List.length_nil, List.length_replicate] <;> omega
  rw [b1, b2, b3, b4, b5, b6, b7]
  by_cases hEz : 0 < E
  · rw [if_pos hEz, b8]
    have hcrc : setBytes (((((((((List.replicate 4 0 ++ beU32 K) ++
        beU32 V) ++ beU32 E) ++ beU16 e.typ) ++ beU16 e.mark) ++
        e.meta.key) ++ e.meta.value) ++ e.meta.extra) ++
        List.replicate 0 0) 0 (beU32 (crc32 e.meta.value)) =
        beU32 (crc32 e.meta.value) ++ ((((((beU32 K ++ beU32 V) ++
        beU32 E) ++ beU16 e.typ) ++ beU16 e.mark) ++ e.meta.key) ++
        e.meta.value) ++ e.meta.extra := by
      rw [setBytes_zero]
      simp only [List.append_assoc, List.replicate, List.append_nil]
      rw [show (beU32 (crc32 e.meta.value)).length = 4 from by simp [beU32]]
      simp [List.drop_append_eq_append_drop, List.append_assoc]
    rw [hcrc]
    simp [List.append_assoc]
  · rw [if_neg hEz]
    have hEe : e.meta.extra = [] := by
      have : E = 0 := by omega
      rw [hE] at this
      exact List.length_eq_zero.mp this
    rw [setBytes_zero]
    simp only [List.append_assoc, List.append_nil, hEe]
    rw [show (beU32 (crc32 e.meta.value)).length = 4 from by simp [beU32]]
    have : E = 0 := by omega
    simp [this, List.drop_append_eq_append_drop, List.append_assoc]

/-- C3: for every record r with key_size > 0 and key, value, extra of
the declared lengths (sizes below 2^32, tags below 2^16), encoding r
yields a buffer from which decoding recovers every header field of r;
after the segment reader fills the payload slices they equal those of r,
the CRC check over the value bytes succeeds, and DBFile.Read at the
record's offset returns r (with its checksum field populated) without
error. -/
theorem c3_encode_read_roundtrip (e : Entry) (pre : Bytes)
    (h1 : e.meta.keySize = e.meta.key.length)
    (h2 : e.meta.valueSize = e.meta.value.length)
    (h3 : e.meta.extraSize = e.meta.extra.length)
    (h4 : 0 < e.meta.keySize)
    (hks : e.meta.key.length < 4294967296)
    (hvs : e.meta.value.length < 4294967296)
    (hes : e.meta.extra.length < 4294967296)
    (ht : e.typ < 65536) (hm : e.mark < 65536) :
    ∃ buf, e.encode = some buf ∧
      dbFileRead .standard (pre ++ buf) pre.length =
        .ok { e with crc := crc32 e.meta.value } := by
  obtain ⟨⟨key, value, extra, ks, vs, es⟩, typ, mark, crc0⟩ := e
  simp only at h1 h2 h3 h4 hks hvs hes ht hm
  refine ⟨_, encode_eq_concat _ h1 h2 h3 h4, ?_⟩
  set H : Bytes := beU32 (crc32 value) ++ beU32 ks ++ beU32 vs ++
    beU32 es ++ beU16 typ ++ beU16 mark with hH
  set P : Bytes := key ++ value ++ extra with hP
  have hHlen : H.length = 20 := by
    simp [hH, beU32, beU16]
  have hread0 : readBuf .standard (pre ++ (H ++ P)) pre.length
      entryHeaderSize = some H :=
    readBuf_standard_at _ pre H P _ _ (by simp [List.append_assoc])
      rfl (by simp [hHlen, entryHeaderSize])
  have hdcrc : getU32 H 0 = crc32 value :=
    getU32_at H [] (beU32 ks ++ beU32 vs ++ beU32 es ++ beU16 typ ++
      beU16 mark) 0 _ (by simp [hH, List.append_assoc]) rfl (crc32_lt _)
  have hdks : getU32 H 4 = ks :=
    getU32_at H (beU32 (crc32 value))
      (beU32 vs ++ beU32 es ++ beU16 typ ++ beU16 mark) 4 ks
      (by simp [hH, List.append_assoc]) (by simp [beU32]) (by omega)
  have hdvs : getU32 H 8 = vs :=
    getU32_at H (beU32 (crc32 value) ++ beU32 ks)
      (beU32 es ++ beU16 typ ++ beU16 mark) 8 vs
      (by simp [hH, List.append_assoc]) (by simp [beU32]) (by omega)
  have hdes : getU32 H 12 = es :=
    getU32_at H (beU32 (crc32 value) ++ beU32 ks ++ beU32 vs)
      (beU16 typ ++ beU16 mark) 12 es
      (by simp [hH, List.append_assoc]) (by simp [beU32]) (by omega)
  have hdt : getU16 H 16 = typ :=
    getU16_at H (beU32 (crc32 value) ++ beU32 ks ++ beU32 vs ++ beU32 es)
      (beU16 mark) 16 typ (by simp [hH, List.append_assoc])
      (by simp [beU32]) ht
  have hdm : getU16 H 18 = mark :=
    getU16_at H (beU32 (crc32 value) ++ beU32 ks ++ beU32 vs ++
      beU32 es ++ beU16 typ) [] 18 mark (by simp [hH, List.append_assoc])
      (by simp [beU32, beU16]) hm
  have hdecode : decode H =
      { meta := { key := [], value := [], extra := [], keySize := ks,
                  valueSize := vs, extraSize := es },
        typ := typ, mark := mark, crc := crc32 value } := by
    simp [decode, hdcrc, hdks, hdvs, hdes, hdt, hdm]
  have hread1 : readBuf .standard (pre ++ (H ++ P))
      (pre.length + entryHeaderSize) ks = some key :=
    readBuf_standard_at _ (pre ++ H) key (value ++ extra) _ _
      (by simp [hP, List.append_assoc]) (by simp [hHlen, entryHeaderSize]) h1
  have hread2 : readBuf .standard (pre ++ (H ++ P))
      (pre.length + entryHeaderSize + ks) vs = some value :=
    readBuf_standard_at _ (pre ++ H ++ key) value extra _ _
      (by simp [hP, List.append_assoc])
      (by simp [hHlen, entryHeaderSize, h1]; omega) h2
  have hread3 : readBuf .standard (pre ++ (H ++ P))
      (pre.length + entryHeaderSize + ks + vs) es = some extra :=
    readBuf_standard_at _ (pre ++ H ++ key ++ value) extra [] _ _
      (by simp [hP, List.append_assoc])
      (by simp [hHlen, entryHeaderSize, h1, h2]; omega) h3
  have hbuf : pre ++ (beU32 (crc32 value) ++ beU32 ks ++ beU32 vs ++
      beU32 es ++ beU16 typ ++ beU16 mark ++ key ++ value ++ extra) =
      pre ++ (H ++ P) := by
    simp [hH, hP, List.append_assoc]
  rw [hbuf]
  unfold dbFileRead
  rw [hread0]
  simp only [hdecode, if_pos h4]
  rw [hread1]
  have hvz : ¬ 0 < vs → value = [] := by
    intro hv
    rw [h2] at hv
    exact List.length_eq_zero.mp (by omega)
  have hxz : ¬ 0 < es → extra = [] := by
    intro hx
    rw [h3] at hx
    exact List.length_eq_zero.mp (by omega)
  by_cases hv : 0 < vs <;> by_cases hx : 0 < es
  · simp [hv, hx, hread2, hread3]
  · simp [hv, hx, hread2, hxz hx]
  · simp [hv, hx, hread3, hvz hv]
  · simp [hv, hx, hvz hv, hxz hx]

/-- Witness for C3 at a concrete record: key k, value v, no extra. -/
theorem c3_encode_read_roundtrip_witness :
    ∃ buf, (newEntryNoExtra [107] [118] TString StringSet).encode =
      some buf ∧
      dbFileRead .standard ([] ++ buf) (List.length ([] : Bytes)) =
        .ok { newEntryNoExtra [107] [118] TString StringSet with
              crc := crc32 [118] } :=
  c3_encode_read_roundtrip (newEntryNoExtra [107] [118] TString StringSet)
    [] (by decide) (by decide) (by decide) (by decide) (by decide)
    (by decide) (by decide) (by decide) (by decide)

theorem zread0 : dbFileRead .mapped (List.replicate 60 0) 0 =
    .ok zeroEntry := by decide

theorem zread20 : dbFileRead .mapped (List.replicate 60 0) 20 =
    .ok zeroEntry := by decide

theorem zread40 : dbFileRead .mapped (List.replicate 60 0) 40 =
    .ok zeroEntry := by decide

theorem zread60 : dbFileRead .mapped (List.replicate 60 0) 60 =
    .ok zeroEntry := by decide

theorem zsize : zeroEntry.size = 20 := by decide

theorem scanZero80 : scanFileAux .mapped 60 (List.replicate 60 0) 80 =
    .ok [] := by
  rw [scanFileAux]
  norm_num

theorem scanZero60 : scanFileAux .mapped 60 (List.replicate 60 0) 60 =
    .ok [(60, zeroEntry)] := by
  rw [scanFileAux]
  rw [dif_pos (by norm_num), zread60]
  simp only [zsize]
  norm_num [scanZero80]

theorem scanZero40 : scanFileAux .mapped 60 (List.replicate 60 0) 40 =
    .ok [(40, zeroEntry), (60, zeroEntry)] := by
  rw [scanFileAux]
  rw [dif_pos (by norm_num), zread40]
  simp only [zsize]
  norm_num [scanZero60]

theorem scanZero20 : scanFileAux .mapped 60 (List.replicate 60 0) 20 =
    .ok [(20, zeroEntry), (40, zeroEntry), (60, zeroEntry)] := by
  rw [scanFileAux]
  rw [dif_pos (by norm_num), zread20]
  simp only [zsize]
  norm_num [scanZero40]

/-- C5: on a zero-filled mmap-backed segment (BlockSize 60), the
recovery scan reads a record whose key_size is 0 at offset 0 without
error, replays it, and keeps going — replaying three further records at
offsets 20, 40 and 60 — terminating only once the offset exceeds
BlockSize.  The claimed termination at the first key_size == 0 record,
with no replay of it or anything after it, does not happen: the scan
loop of loadIdxFromFiles has no key_size check at all. -/
theorem c5_scan_zero_tail_replayed :
    scanFile .mapped 60 (List.replicate 60 0) =
      .ok [(0, zeroEntry), (20, zeroEntry), (40, zeroEntry),
           (60, zeroEntry)] ∧
    zeroEntry.meta.keySize = 0 := by
  constructor
  · unfold scanFile
    rw [scanFileAux]
    rw [dif_pos (by norm_num), zread0]
    simp only [zsize]
    norm_num [scanZero20]
  · decide

theorem storeK_activeId (blockSize : Nat) (fs : KindFiles) (e : Entry) :
    (storeK blockSize fs e).1.activeId =
      (rotateIfNeeded blockSize fs e).activeId := by
  unfold storeK
  split <;> rfl

theorem rotateIfNeeded_activeId (blockSize : Nat) (fs : KindFiles)
    (e : Entry) : fs.activeId ≤ (rotateIfNeeded blockSize fs e).activeId := by
  unfold rotateIfNeeded
  split <;> simp

theorem runStoresIds_mono (blockSize : Nat) (es : List Entry) :
    ∀ fs : KindFiles,
      fs.activeId ≤ (runStoresIds blockSize fs es).1.activeId ∧
      (∀ i ∈ (runStoresIds blockSize fs es).2, fs.activeId < i ∧
        i ≤ (runStoresIds blockSize fs es).1.activeId) ∧
      (runStoresIds blockSize fs es).2.Chain' (· < ·) := by
  induction es with
  | nil =>
    intro fs
    simp [runStoresIds]
  | cons e t ih =>
    intro fs
    have hstep : (storeK blockSize fs e).1.activeId =
        if blockSize < fs.activeOffset + e.size then fs.activeId + 1
        else fs.activeId := by
      rw [storeK_activeId]
      unfold rotateIfNeeded
      split <;> simp
    obtain ⟨ih1, ih2, ih3⟩ := ih (storeK blockSize fs e).1
    by_cases hc : blockSize < fs.activeOffset + e.size
    · have hid : (storeK blockSize fs e).1.activeId = fs.activeId + 1 := by
        rw [hstep, if_pos hc]
      refine ⟨?_, ?_, ?_⟩
      · show fs.activeId ≤ (runStoresIds blockSize
          (storeK blockSize fs e).1 t).1.activeId
        omega
      · intro i hi
        simp only [runStoresIds, if_pos hc] at hi
        simp only [List.singleton_append, List.mem_cons] at hi
        rcases hi with rfl | hi
        · constructor
          · omega
          · show fs.activeId + 1 ≤ (runStoresIds blockSize
              (storeK blockSize fs e).1 t).1.activeId
            omega
        · have := ih2 i hi
          constructor
          · omega
          · exact this.2
      · simp only [runStoresIds, if_pos hc, List.singleton_append]
        rw [List.chain'_cons']
        refine ⟨?_, ih3⟩
        intro y hy
        have hmem : y ∈ (runStoresIds blockSize
            (storeK blockSize fs e).1 t).2 := by
          exact List.mem_of_mem_head? hy
        have := ih2 y hmem
        omega
    · have hid : (storeK blockSize fs e).1.activeId = fs.activeId := by
        rw [hstep, if_neg hc]
      refine ⟨?_, ?_, ?_⟩
      · show fs.activeId ≤ (runStoresIds blockSize
          (storeK blockSize fs e).1 t).1.activeId
        omega
      · intro i hi
        simp only [runStoresIds, if_neg hc, List.nil_append] at hi
        have := ih2 i hi
        constructor
        · omega
        · exact this.2
      · simp only [runStoresIds, if_neg hc, List.nil_append]
        exact ih3

/-- C4: when the active segment of a kind cannot fit the record, the
engine syncs that segment, archives it under its current id, opens a
fresh active segment with id one greater and a zeroed persisted
active-write-offset, and appends the record at offset 0 of the fresh
segment; when the record fits, no rotation happens.  Consequently the
active-segment ids assigned over any sequence of stores are strictly
increasing. -/
theorem c4_store_rotation_monotonic (blockSize : Nat) (fs : KindFiles)
    (e : Entry) (es : List Entry) :
    (blockSize < fs.activeOffset + e.size →
      rotateIfNeeded blockSize fs e =
        { activeId := fs.activeId + 1, activeOffset := 0, writeOff := 0,
          archived := fs.archived ++ [(fs.activeId, fs.activeOffset)],
          syncs := fs.syncs ++ [fs.activeId], log := fs.log } ∧
      (e.meta.keySize ≠ 0 →
        (storeK blockSize fs e).2 = some (fs.activeId + 1, 0))) ∧
    (¬ blockSize < fs.activeOffset + e.size →
      rotateIfNeeded blockSize fs e = fs) ∧
    (runStoresIds blockSize fs es).2.Chain' (· < ·) := by
  refine ⟨?_, ?_, (runStoresIds_mono blockSize es fs).2.2⟩
  · intro hc
    constructor
    · unfold rotateIfNeeded
      rw [if_pos hc]
    · intro hk
      unfold storeK rotateIfNeeded
      rw [if_pos hc]
      simp [hk]
  · intro hc
    unfold rotateIfNeeded
    rw [if_neg hc]

/-- Witness for C4 at a concrete store: BlockSize 30, active offset 22,
record of size 22 forces a rotation; two stores assign ids 1 and 2. -/
theorem c4_store_rotation_monotonic_witness :
    (30 < (22 : Nat) + (newEntryNoExtra [1] [2] TString StringSet).size →
      rotateIfNeeded 30
        { activeId := 0, activeOffset := 22, writeOff := 22,
          archived := [], syncs := [], log := [] }
        (newEntryNoExtra [1] [2] TString StringSet) =
        { activeId := 1, activeOffset := 0, writeOff := 0,
          archived := [(0, 22)], syncs := [0], log := [] } ∧
      ((newEntryNoExtra [1] [2] TString StringSet).meta.keySize ≠ 0 →
        (storeK 30
          { activeId := 0, activeOffset := 22, writeOff := 22,
            archived := [], syncs := [], log := [] }
          (newEntryNoExtra [1] [2] TString StringSet)).2 =
          some (1, 0))) ∧
    (¬ 30 < (22 : Nat) + (newEntryNoExtra [1] [2] TString StringSet).size →
      rotateIfNeeded 30
        { activeId := 0, activeOffset := 22, writeOff := 22,
          archived := [], syncs := [], log := [] }
        (newEntryNoExtra [1] [2] TString StringSet) =
        { activeId := 0, activeOffset := 22, writeOff := 22,
          archived := [], syncs := [], log := [] }) ∧
    (runStoresIds 30
      { activeId := 0, activeOffset := 22, writeOff := 22,
        archived := [], syncs := [], log := [] }
      [newEntryNoExtra [1] [2] TString StringSet,
       newEntryNoExtra [1] [2] TString StringSet]).2.Chain' (· < ·) := by
  have h := c4_store_rotation_monotonic 30
    { activeId := 0, activeOffset := 22, writeOff := 22,
      archived := [], syncs := [], log := [] }
    (newEntryNoExtra [1] [2] TString StringSet)
    [newEntryNoExtra [1] [2] TString StringSet,
     newEntryNoExtra [1] [2] TString StringSet]
  exact ⟨fun hc => (h.1 hc), h.2.1, h.2.2⟩

/-- C6 (evaluating the code at the failing input): with the expiry
table holding deadline 5 for the key and the current time 10 past it,
Get still returns the stored bytes with no error, because the source
Get consults only the skiplist index and never the expiry table; the
index entry is still present mid-session. -/
theorem c6_get_returns_expired_value :
    expired [([107], 5)] 10 [107] = true ∧
    getOp { emptyDB with strIdx :=
      [{ meta := { key := [107], value := [118], extra := [],
                   keySize := 1, valueSize := 1, extraSize := 0 },
         fileId := 0, entrySize := 22, offset := 0 }] } [107] =
      (some [118], none) := by
  decide

/-- C8 (evaluating the code at the failing input): Append on an absent
key propagates Get's KeyNotExist error and changes nothing — no record
is appended and no Set happens — although the function's own comment
and the spec say an absent key makes Append behave as Set(key, value). -/
theorem c8_append_absent_key_errors :
    appendOp { blockSize := 1024, maxKeySize := 20, maxValueSize := 20 }
      [] 0 emptyDB [107] [118] = (emptyDB, some Err.keyNotExist) := by
  decide

/-- C10: when the in-memory list index holds no list or an empty list
under the key, LPop and RPop return a nil value and a nil error, append
no record, and leave the whole engine state unchanged. -/
theorem c10_pop_empty_list_noop (cfg : Config) (db : DB) (key : Bytes)
    (h : (lookupA db.listIdx key).getD [] = []) :
    lpopOp cfg db key = (db, none, none) ∧
    rpopOp cfg db key = (db, none, none) := by
  unfold lpopOp rpopOp listPop
  cases hl : lookupA db.listIdx key with
  | none => simp [hl]
  | some l =>
    have hnil : l = [] := by simpa [hl] using h
    subst hnil
    simp [hl]

/-- Witness for C10: popping a key absent from an empty database. -/
theorem c10_pop_empty_list_noop_witness :
    lpopOp { blockSize := 1024, maxKeySize := 20, maxValueSize := 20 }
      emptyDB [107] = (emptyDB, none, none) ∧
    rpopOp { blockSize := 1024, maxKeySize := 20, maxValueSize := 20 }
      emptyDB [107] = (emptyDB, none, none) :=
  c10_pop_empty_list_noop _ emptyDB [107] (by decide)

/-- C1 (evaluating the code at the failing input): a single archived
String segment with id 1 holds one live StringSet record at offset 0;
Reclaim rewrites the record into the fresh segment with id 0 at offset
0, but updates the key's locator to file id 1 — the id counter after
its increment — instead of the id 0 of the segment the record was
written to, so the locator no longer names the record's new position
and reads that follow it target the wrong segment. -/
theorem c1_reclaim_locator_off_by_one :
    (let eK := newEntryNoExtra [107] [118] TString StringSet
     let r := reclaimString 1024 [] 0
       [{ meta := eK.meta, fileId := 1, entrySize := eK.size,
          offset := 0 }] [(1, [eK])]
     r.archFiles = [{ id := 0, offset := 22, entries := [eK] }] ∧
     (skGet r.strIdx [107]).map (fun i => (i.fileId, i.offset)) =
       some (1, 0) ∧ (1 : Nat) ≠ 0) := by
  decide

/-- C9 counterexample: LPop with an empty key is not rejected — it
returns a nil error rather than the EmptyKey failure the claim
requires of every mutating operation. -/
theorem c9_lpop_empty_key_not_rejected :
    (lpopOp { blockSize := 1024, maxKeySize := 20, maxValueSize := 20 }
      emptyDB []).2.2 = none ∧
    (lpopOp { blockSize := 1024, maxKeySize := 20, maxValueSize := 20 }
      emptyDB []).2.2 ≠ some Err.emptyKey := by
  decide

/-- C9 amended: checkKeyValue classifies empty, oversized-key and
oversized-value inputs; Set, StrRem, Append, LPush, RPush, LInsert,
LSet, SAdd, SRem and SPop propagate that error and leave the state
unchanged, as do the spec-modelled HSet, HDel, ZAdd and ZRem, and
SetNx rejects an empty or oversized key through Set; but LPop, RPop,
LRem, LTrim and SMove perform no input validation at all — LPop and
RPop never return an error, and LRem, LTrim and SMove silently no-op
on any key, however invalid. -/
theorem c9_validation_amended (cfg : Config) (exp : Expires) (now : Nat)
    (db : DB) :
    (∀ key values, key = ([] : Bytes) →
      checkKeyValue cfg key values = some .emptyKey) ∧
    (∀ (key : Bytes) values, key ≠ [] → cfg.maxKeySize < key.length →
      checkKeyValue cfg key values = some .keyTooLarge) ∧
    (∀ (key : Bytes) (values : List Bytes), key ≠ [] →
      ¬ cfg.maxKeySize < key.length →
      values.any (fun v => cfg.maxValueSize < v.length) = true →
      checkKeyValue cfg key values = some .valueTooLarge) ∧
    (∀ key value err, checkKeyValue cfg key [value] = some err →
      setOp cfg exp now db key value = (db, some err)) ∧
    (∀ value, setNxOp cfg exp now db [] value = (db, some .emptyKey)) ∧
    (∀ (key : Bytes) value, key ≠ [] → cfg.maxKeySize < key.length →
      setNxOp cfg exp now db key value = (db, some .keyTooLarge)) ∧
    (∀ key err, checkKeyValue cfg key [[]] = some err →
      strRemOp cfg db key = (db, some err)) ∧
    (∀ key value err, checkKeyValue cfg key [value] = some err →
      appendOp cfg exp now db key value = (db, some err)) ∧
    (∀ key values err, checkKeyValue cfg key values = some err →
      lpushOp cfg db key values = (db, some err)) ∧
    (∀ key values err, checkKeyValue cfg key values = some err →
      rpushOp cfg db key values = (db, some err)) ∧
    (∀ key o pivot value err, checkKeyValue cfg key [value] = some err →
      linsertOp cfg db key o pivot value = (db, some err)) ∧
    (∀ key i value err, checkKeyValue cfg key [value] = some err →
      lsetOp cfg db key i value = (db, some err)) ∧
    (∀ key values err, checkKeyValue cfg key values = some err →
      saddOp cfg db key values = (db, some err)) ∧
    (∀ key values err, checkKeyValue cfg key values = some err →
      sremOp cfg db key values = (db, some err)) ∧
    (∀ key count err, checkKeyValue cfg key [[]] = some err →
      spopOp cfg db key count = (db, [], some err)) ∧
    (∀ key field value err, checkKeyValue cfg key [value] = some err →
      hsetOp cfg db key field value = (db, some err)) ∧
    (∀ key field err, checkKeyValue cfg key [[]] = some err →
      hdelOp cfg db key field = (db, some err)) ∧
    (∀ key s member err, checkKeyValue cfg key [member] = some err →
      zaddOp cfg db key s member = (db, some err)) ∧
    (∀ key member err, checkKeyValue cfg key [member] = some err →
      zremOp cfg db key member = (db, some err)) ∧
    (∀ key, (lpopOp cfg db key).2.2 = none) ∧
    (∀ key, (rpopOp cfg db key).2.2 = none) ∧
    (∀ key value c, lookupA db.listIdx key = none →
      lremOp cfg db key value c = (db, 0, none)) ∧
    (∀ key s t, lookupA db.listIdx key = none →
      ltrimOp cfg db key s t = (db, none)) ∧
    (∀ src dst member, lookupA db.setIdx src = none →
      smoveOp cfg db src dst member = (db, none)) := by
  refine ⟨?_, ?_, ?_, ?_, ?_, ?_, ?_, ?_, ?_, ?_, ?_, ?_, ?_, ?_, ?_,
    ?_, ?_, ?_, ?_, ?_, ?_, ?_, ?_, ?_⟩
  · intro key values hk
    simp [checkKeyValue, hk]
  · intro key values hk hbig
    simp [checkKeyValue, hbig, List.length_eq_zero, hk]
  · intro key values hk hok hval
    have hkl : ¬ key.length = 0 := by
      simpa [List.length_eq_zero] using hk
    simp [checkKeyValue, hkl, hok, hval]
  · intro key value err h
    simp [setOp, h]
  · intro value
    have h0 : checkKeyValue cfg ([] : Bytes) [[]] = some .emptyKey := by
      simp [checkKeyValue]
    have h1 : checkKeyValue cfg ([] : Bytes) [value] = some .emptyKey := by
      simp [checkKeyValue]
    simp [setNxOp, strExists, h0, setOp, h1]
  · intro key value hk hbig
    have h0 : checkKeyValue cfg key [[]] = some .keyTooLarge := by
      simp [checkKeyValue, hbig, List.length_eq_zero, hk]
    have h1 : checkKeyValue cfg key [value] = some .keyTooLarge := by
      simp [checkKeyValue, hbig, List.length_eq_zero, hk]
    simp [setNxOp, strExists, h0, setOp, h1]
  · intro key err h
    simp [strRemOp, h]
  · intro key value err h
    simp [appendOp, h]
  · intro key values err h
    simp [lpushOp, h]
  · intro key values err h
    simp [rpushOp, h]
  · intro key o pivot value err h
    simp [linsertOp, h]
  · intro key i value err h
    simp [lsetOp, h]
  · intro key values err h
    simp [saddOp, h]
  · intro key values err h
    simp [sremOp, h]
  · intro key count err h
    simp [spopOp, h]
  · intro key field value err h
    simp [hsetOp, h]
  · intro key field err h
    simp [hdelOp, h]
  · intro key s member err h
    simp [zaddOp, h]
  · intro key member err h
    simp [zremOp, h]
  · intro key
    unfold lpopOp listPop
    cases hl : lookupA db.listIdx key with
    | none => simp [hl]
    | some l =>
      cases l with
      | nil => simp [hl]
      | cons x t => simp [hl]
  · intro key
    unfold rpopOp listPop
    cases hl : lookupA db.listIdx key with
    | none => simp [hl]
    | some l =>
      cases l with
      | nil => simp [hl]
      | cons x t =>
        cases hg : (x :: t).getLast? with
        | none => simp [hl, hg]
        | some v => simp [hl, hg]
  · intro key value c h
    unfold lremOp listLRem
    simp [h]
  · intro key s t h
    unfold ltrimOp listLTrim
    simp [h]
  · intro src dst member h
    unfold smoveOp sMove sRem
    simp [h]

/-- Witness for C9's amended claim: rejected Set, SetNx and SPop calls
on an empty key and an error-free LPop on the same empty key. -/
theorem c9_validation_amended_witness :
    setOp { blockSize := 1024, maxKeySize := 20, maxValueSize := 20 }
      [] 0 emptyDB [] [5] = (emptyDB, some Err.emptyKey) ∧
    setNxOp { blockSize := 1024, maxKeySize := 20, maxValueSize := 20 }
      [] 0 emptyDB [] [5] = (emptyDB, some Err.emptyKey) ∧
    spopOp { blockSize := 1024, maxKeySize := 20, maxValueSize := 20 }
      emptyDB [] 1 = (emptyDB, [], some Err.emptyKey) ∧
    (lpopOp { blockSize := 1024, maxKeySize := 20, maxValueSize := 20 }
      emptyDB []).2.2 = none := by
  obtain ⟨-, -, -, hset, hsetnx, -, -, -, -, -, -, -, -, -, hspop, -, -,
      -, -, hlpop, -, -, -, -⟩ :=
    c9_validation_amended
      { blockSize := 1024, maxKeySize := 20, maxValueSize := 20 }
      [] 0 emptyDB
  exact ⟨hset [] [5] Err.emptyKey (by decide), hsetnx [5],
    hspop [] 1 Err.emptyKey (by decide), hlpop []⟩

theorem blt_nil_cons (y : Nat) (bs : Bytes) : blt [] (y :: bs) = true := rfl

theorem blt_cons_nil (x : Nat) (as : Bytes) : blt (x :: as) [] = false := rfl

theorem blt_cons_cons (x y : Nat) (as bs : Bytes) :
    blt (x :: as) (y :: bs) =
      if x < y then true else if y < x then false else blt as bs := rfl

theorem blt_irrefl : ∀ a : Bytes, blt a a = false := by
  intro a
  induction a with
  | nil => rfl
  | cons x as ih => simp [blt_cons_cons, ih]

theorem blt_trans : ∀ a b c : Bytes, blt a b = true → blt b c = true →
    blt a c = true := by
  intro a
  induction a with
  | nil =>
    intro b c hab hbc
    cases c with
    | nil =>
      cases b with
      | nil => simpa using hab
      | cons y bs => simpa [blt_cons_nil] using hbc
    | cons z cs => exact blt_nil_cons _ _
  | cons x as ih =>
    intro b c hab hbc
    cases b with
    | nil => simp [blt] at hab
    | cons y bs =>
      cases c with
      | nil => simp [blt_cons_nil] at hbc
      | cons z cs =>
        rw [blt_cons_cons] at hab hbc ⊢
        by_cases h1 : x < y
        · by_cases h2 : y < z
          · rw [if_pos (show x < z from by omega)]
          · rw [if_neg h2] at hbc
            by_cases h3 : z < y
            · rw [if_pos h3] at hbc
              exact absurd hbc (by simp)
            · have hyz : y = z := by omega
              subst hyz
              rw [if_pos h1]
        · rw [if_neg h1] at hab
          by_cases h4 : y < x
          · rw [if_pos h4] at hab
            exact absurd hab (by simp)
          · have hxy : x = y := by omega
            subst hxy
            rw [if_neg (lt_irrefl x)] at hab
            by_cases h2 : x < z
            · rw [if_pos h2]
            · rw [if_neg h2] at hbc ⊢
              by_cases h3 : z < x
              · rw [if_pos h3] at hbc
                exact absurd hbc (by simp)
              · rw [if_neg h3] at hbc ⊢
                exact ih _ _ hab hbc

theorem blt_conn : ∀ a b : Bytes, blt a b = false → blt b a = false →
    a = b := by
  intro a
  induction a with
  | nil =>
    intro b hab _
    cases b with
    | nil => rfl
    | cons y bs => simp [blt_nil_cons] at hab
  | cons x as ih =>
    intro b hab hba
    cases b with
    | nil => simp [blt_nil_cons] at hba
    | cons y bs =>
      rw [blt_cons_cons] at hab hba
      by_cases h1 : x < y
      · rw [if_pos h1] at hab
        exact absurd hab (by simp)
      · rw [if_neg h1] at hab
        by_cases h2 : y < x
        · rw [if_pos h2] at hba
          exact absurd hba (by simp)
        · have hxy : x = y := by omega
          subst hxy
          rw [if_neg (lt_irrefl x)] at hab
          rw [if_neg (lt_irrefl x), if_neg (lt_irrefl x)] at hba
          rw [ih _ hab hba]

theorem blt_asymm (a b : Bytes) (h : blt a b = true) : blt b a = false := by
  by_contra hcon
  have hba : blt b a = true := by
    cases hx : blt b a
    · exact absurd hx hcon
    · rfl
  have := blt_trans a b a h hba
  rw [blt_irrefl] at this
  exact absurd this (by simp)

theorem isPfx_not_blt : ∀ p k : Bytes, isPfx p k = true →
    blt k p = false := by
  intro p
  induction p with
  | nil =>
    intro k _
    cases k with
    | nil => rfl
    | cons x ks => exact blt_cons_nil _ _
  | cons a ps ih =>
    intro k hpk
    cases k with
    | nil => simp [isPfx] at hpk
    | cons x ks =>
      simp only [isPfx, Bool.and_eq_true, beq_iff_eq] at hpk
      obtain ⟨rfl, htail⟩ := hpk
      rw [blt_cons_cons, if_neg (by omega), if_neg (by omega)]
      exact ih _ htail

theorem pfx_interval : ∀ p k1 k2 : Bytes, blt k1 p = false →
    blt k1 k2 = true → isPfx p k2 = true → isPfx p k1 = true := by
  intro p
  induction p with
  | nil => intro k1 k2 _ _ _; rfl
  | cons a ps ih =>
    intro k1 k2 hge hlt hpfx
    cases k2 with
    | nil => simp [isPfx] at hpfx
    | cons z k2t =>
      simp only [isPfx, Bool.and_eq_true, beq_iff_eq] at hpfx
      obtain ⟨rfl, hpfx2⟩ := hpfx
      cases k1 with
      | nil => simp [blt_nil_cons] at hge
      | cons x k1t =>
        rw [blt_cons_cons] at hge hlt
        by_cases h1 : x < a
        · rw [if_pos h1] at hge
          exact absurd hge (by simp)
        · rw [if_neg h1] at hge hlt
          by_cases h2 : a < x
          · rw [if_pos h2] at hlt
            exact absurd hlt (by simp)
          · rw [if_neg h2] at hge hlt
            have hxa : x = a := by omega
            subst hxa
            simp only [isPfx, Bool.and_eq_true]
            exact ⟨by simp, ih _ _ hge hlt hpfx2⟩

theorem filter_eq_takeWhile_of (f : Indexer → Bool) :
    ∀ l : List Indexer,
      l.Pairwise (fun x y => f y = true → f x = true) →
      l.filter f = l.takeWhile f := by
  intro l
  induction l with
  | nil => intro _; rfl
  | cons i t ih =>
    intro hp
    rw [List.pairwise_cons] at hp
    obtain ⟨hhead, htail⟩ := hp
    cases hf : f i with
    | true => simp [List.filter_cons, List.takeWhile_cons, hf, ih htail]
    | false =>
      have hnil : t.filter f = [] := by
        rw [List.filter_eq_nil]
        intro y hy hfy
        have := hhead y hy hfy
        rw [hf] at this
        exact absurd this (by simp)
      simp [List.filter_cons, List.takeWhile_cons, hf, hnil]

theorem dropWhile_head_false (f : Indexer → Bool) :
    ∀ (l : List Indexer) (x : Indexer),
      (l.dropWhile f).head? = some x → f x = false := by
  intro l
  induction l with
  | nil => intro x hx; simp at hx
  | cons i t ih =>
    intro x hx
    rw [List.dropWhile_cons] at hx
    by_cases hf : f i = true
    · rw [if_pos hf] at hx
      exact ih x hx
    · rw [if_neg hf] at hx
      simp only [List.head?_cons, Option.some.injEq] at hx
      subst hx
      cases hb : f i with
      | false => rfl
      | true => exact absurd hb hf

theorem mem_dropWhile_blt (p : Bytes) :
    ∀ l : List Indexer, SortedIdx l →
      ∀ x ∈ l.dropWhile (fun i => blt i.meta.key p),
        blt x.meta.key p = false := by
  intro l
  induction l with
  | nil => intro _ x hx; simp at hx
  | cons i t ih =>
    intro hs x hx
    rw [SortedIdx, List.pairwise_cons] at hs
    obtain ⟨hhead, htail⟩ := hs
    rw [List.dropWhile_cons] at hx
    by_cases hf : blt i.meta.key p = true
    · rw [if_pos hf] at hx
      exact ih htail x hx
    · rw [if_neg hf] at hx
      rcases List.mem_cons.mp hx with rfl | hxt
      · cases hfx : blt x.meta.key p
        · rfl
        · exact absurd hfx hf
      · cases hfx : blt x.meta.key p
        · rfl
        · exfalso
          have hix := hhead x hxt
          have : blt i.meta.key p = true := blt_trans _ _ _ hix hfx
          exact hf this

theorem psSkip_eq (p : Bytes) :
    ∀ (n : Nat) (l : List Indexer),
      psSkip p n l = (l.takeWhile (fun i => isPfx p i.meta.key)).drop n ++
        l.dropWhile (fun i => isPfx p i.meta.key) := by
  intro n
  induction n with
  | zero =>
    intro l
    simp [psSkip, List.takeWhile_append_dropWhile]
  | succ m ih =>
    intro l
    cases l with
    | nil => simp [psSkip]
    | cons i t =>
      simp only [psSkip]
      cases hf : isPfx p i.meta.key with
      | true =>
        rw [if_pos rfl]
        rw [ih t]
        simp [List.takeWhile_cons, List.dropWhile_cons, hf]
      | false =>
        rw [if_neg (by simp [hf])]
        simp [List.takeWhile_cons, List.dropWhile_cons, hf]

theorem psLoop_append (p : Bytes) :
    ∀ (A D : List Indexer) (limit : Int),
      (∀ x ∈ A, isPfx p x.meta.key = true) →
      (∀ x, D.head? = some x → isPfx p x.meta.key = false) →
      psLoop p (A ++ D) limit =
        if limit < 0 then A.map (fun i => i.meta.value)
        else (A.take limit.toNat).map (fun i => i.meta.value) := by
  intro A
  induction A with
  | nil =>
    intro D limit _ hD
    cases D with
    | nil => simp [psLoop]
    | cons d t =>
      have hd : isPfx p d.meta.key = false := hD d (by simp)
      simp [psLoop, hd]
  | cons a A' ih =>
    intro D limit hA hD
    have ha : isPfx p a.meta.key = true := hA a (by simp)
    by_cases hz : limit = 0
    · subst hz
      simp [psLoop]
    · rw [List.cons_append]
      simp only [psLoop]
      rw [if_pos ⟨hz, ha⟩]
      by_cases hneg : limit < 0
      · have hstep : ¬ 0 < limit := by omega
        rw [if_neg hstep]
        rw [ih D limit (fun x hx => hA x (by simp [hx])) hD]
        rw [if_pos hneg, if_pos hneg]
        simp
      · have hpos : 0 < limit := by omega
        rw [if_pos hpos]
        rw [ih D (limit - 1) (fun x hx => hA x (by simp [hx])) hD]
        rw [if_neg (by omega), if_neg hneg]
        have htn : limit.toNat = (limit - 1).toNat + 1 := by omega
        rw [htn]
        simp

/-- C7 counterexample: index holding keys a1 and a2 (both matching
prefix a); PrefixScan with limit -1 and offset 1 returns both values —
the offset is not skipped — where the claim requires the result after
skipping one entry, namely only a2's value. -/
theorem c7_offset_ignored_counterexample :
    (prefixScan { blockSize := 1024, maxKeySize := 20, maxValueSize := 20 }
      { emptyDB with strIdx :=
        [{ meta := { key := [97, 49], value := [49], extra := [],
                     keySize := 2, valueSize := 1, extraSize := 0 },
           fileId := 0, entrySize := 23, offset := 0 },
         { meta := { key := [97, 50], value := [50], extra := [],
                     keySize := 2, valueSize := 1, extraSize := 0 },
           fileId := 0, entrySize := 23, offset := 23 }] }
      [97] (-1) 1).1 = [[49], [50]] ∧ [[49], [50]] ≠ [[50]] := by
  decide

/-- C7 amended: PrefixScan returns no error for a valid prefix; a zero
limit yields the empty result; a negative limit yields the values of
every key with the prefix, in index order, with the offset ignored (the
skip loop runs only when the limit is positive); a positive limit
yields up to limit values after skipping max(offset, 0) matching
entries; and the keys of the matching entries are in strictly
increasing lexicographic order. -/
theorem c7_prefix_scan_characterized (cfg : Config) (db : DB) (p : Bytes)
    (limit offset : Int) (hs : SortedIdx db.strIdx) (hp : p ≠ [])
    (hpk : p.length ≤ cfg.maxKeySize) :
    (prefixScan cfg db p limit offset).2 = none ∧
    (limit = 0 → (prefixScan cfg db p limit offset).1 = []) ∧
    (limit < 0 → (prefixScan cfg db p limit offset).1 =
      (db.strIdx.filter (fun i => isPfx p i.meta.key)).map
        (fun i => i.meta.value)) ∧
    (0 < limit → (prefixScan cfg db p limit offset).1 =
      (((db.strIdx.filter (fun i => isPfx p i.meta.key)).drop
        (max offset 0).toNat).take limit.toNat).map
        (fun i => i.meta.value)) ∧
    ((db.strIdx.filter (fun i => isPfx p i.meta.key)).map
      (fun i => i.meta.key)).Pairwise (fun a b => blt a b = true) := by
  have hord : ((db.strIdx.filter (fun i => isPfx p i.meta.key)).map
      (fun i => i.meta.key)).Pairwise (fun a b => blt a b = true) := by
    refine List.pairwise_map.mpr ?_
    exact hs.sublist (List.filter_sublist _)
  have hchk : checkKeyValue cfg p [[]] = none := by
    unfold checkKeyValue
    rw [if_neg (by simpa [List.length_eq_zero] using hp),
      if_neg (by omega)]
    simp
  by_cases hz : limit = 0
  · subst hz
    unfold prefixScan
    rw [if_pos rfl]
    refine ⟨rfl, fun _ => rfl, fun h => absurd h (by omega),
      fun h => absurd h (by omega), hord⟩
  · have hf : ∀ x : Indexer, x ∈ db.strIdx.dropWhile
        (fun i => blt i.meta.key p) → blt x.meta.key p = false :=
      mem_dropWhile_blt p db.strIdx hs
    by_cases hM : (db.strIdx.dropWhile
        (fun i => blt i.meta.key p)).isEmpty = true
    · -- every key is below the prefix: no key matches, result is empty
      have hMnil : db.strIdx.dropWhile (fun i => blt i.meta.key p) = [] :=
        List.isEmpty_iff.mp hM
      have hall : ∀ x ∈ db.strIdx, blt x.meta.key p = true := by
        intro x hx
        have hl : db.strIdx.takeWhile (fun i => blt i.meta.key p) =
            db.strIdx := by
          have := List.takeWhile_append_dropWhile
            (fun i => blt i.meta.key p) db.strIdx
          rw [hMnil, List.append_nil] at this
          exact this
        rw [← hl] at hx
        have h2 := List.mem_takeWhile_imp hx
        exact h2
      have hheadf : ∀ x : Indexer, db.strIdx.head? = some x →
          isPfx p x.meta.key = false := by
        intro x hx
        cases hpx : isPfx p x.meta.key with
        | false => rfl
        | true =>
          have h1 := isPfx_not_blt p x.meta.key hpx
          have h2 := hall x (List.mem_of_mem_head? hx)
          rw [h1] at h2
          exact absurd h2 (by simp)
      have hfil : db.strIdx.filter (fun i => isPfx p i.meta.key) = [] := by
        rw [List.filter_eq_nil]
        intro x hx hpx
        have h1 := isPfx_not_blt p x.meta.key hpx
        have h2 := hall x hx
        rw [h1] at h2
        exact absurd h2 (by simp)
      have hskip : ∀ n, psSkip p n db.strIdx = db.strIdx ++ [] := by
        intro n
        rw [List.append_nil, psSkip_eq]
        have htw : db.strIdx.takeWhile (fun i => isPfx p i.meta.key) = [] := by
          cases hl : db.strIdx with
          | nil => simp
          | cons i t =>
            rw [List.takeWhile_cons]
            have : isPfx p i.meta.key = false := hheadf i (by rw [hl]; rfl)
            rw [this]
            rfl
        have hdw : db.strIdx.dropWhile (fun i => isPfx p i.meta.key) =
            db.strIdx := by
          have := List.takeWhile_append_dropWhile
            (fun i => isPfx p i.meta.key) db.strIdx
          rw [htw, List.nil_append] at this
          exact this
        rw [htw, hdw]
        simp
      have hloop : ∀ lim : Int, psLoop p db.strIdx lim = [] := by
        intro lim
        have := psLoop_append p [] db.strIdx lim (by simp) hheadf
        simp only [List.nil_append] at this
        rw [this]
        split <;> simp
      have hstart : findPfx db.strIdx p = db.strIdx := by
        simp [findPfx, hM]
      have hres : prefixScan cfg db p limit offset =
          (psLoop p (if 0 < limit then
            psSkip p (if offset < 0 then 0 else offset).toNat db.strIdx
            else db.strIdx) limit, none) := by
        unfold prefixScan
        rw [if_neg hz, hchk, hstart]
      refine ⟨by rw [hres], fun h => absurd h hz, ?_, ?_, hord⟩
      · intro hneg
        rw [hres]
        simp only [if_neg (by omega : ¬ 0 < limit)]
        rw [hloop, hfil]
        simp
      · intro hpos
        rw [hres]
        simp only [if_pos hpos]
        have h3 := hskip (if offset < 0 then 0 else offset).toNat
        rw [List.append_nil] at h3
        rw [h3, hloop, hfil]
        simp
    · -- some key is at or above the prefix
      have hMsorted : SortedIdx (db.strIdx.dropWhile
          (fun i => blt i.meta.key p)) :=
        hs.sublist (List.dropWhile_sublist _)
      have hclosed : (db.strIdx.dropWhile
          (fun i => blt i.meta.key p)).Pairwise
          (fun x y => isPfx p y.meta.key = true →
            isPfx p x.meta.key = true) := by
        refine hMsorted.imp_of_mem ?_
        intro a b ha hb hab hpb
        exact pfx_interval p _ _ (hf a ha) hab hpb
      have hfilterM : (db.strIdx.dropWhile
          (fun i => blt i.meta.key p)).filter
          (fun i => isPfx p i.meta.key) =
          (db.strIdx.dropWhile (fun i => blt i.meta.key p)).takeWhile
          (fun i => isPfx p i.meta.key) :=
        filter_eq_takeWhile_of _ _ hclosed
      have hfilterl : db.strIdx.filter (fun i => isPfx p i.meta.key) =
          (db.strIdx.dropWhile (fun i => blt i.meta.key p)).takeWhile
          (fun i => isPfx p i.meta.key) := by
        conv_lhs => rw [← List.takeWhile_append_dropWhile
          (fun i => blt i.meta.key p) db.strIdx]
        rw [List.filter_append]
        have hB : (db.strIdx.takeWhile
            (fun i => blt i.meta.key p)).filter
            (fun i => isPfx p i.meta.key) = [] := by
          rw [List.filter_eq_nil]
          intro x hx hpx
          have h1 := isPfx_not_blt p x.meta.key hpx
          have h2 := List.mem_takeWhile_imp hx
          simp only [h1] at h2
          exact Bool.noConfusion h2
        rw [hB, List.nil_append, hfilterM]
      have hMD : (db.strIdx.dropWhile (fun i => blt i.meta.key p)) =
          ((db.strIdx.dropWhile (fun i => blt i.meta.key p)).takeWhile
            (fun i => isPfx p i.meta.key)) ++
          ((db.strIdx.dropWhile (fun i => blt i.meta.key p)).dropWhile
            (fun i => isPfx p i.meta.key)) :=
        (List.takeWhile_append_dropWhile _ _).symm
      have hAmem : ∀ x ∈ (db.strIdx.dropWhile
          (fun i => blt i.meta.key p)).takeWhile
          (fun i => isPfx p i.meta.key), isPfx p x.meta.key = true := by
        intro x hx
        have h2 := List.mem_takeWhile_imp hx
        exact h2
      have hDhead : ∀ x : Indexer, ((db.strIdx.dropWhile
          (fun i => blt i.meta.key p)).dropWhile
          (fun i => isPfx p i.meta.key)).head? = some x →
          isPfx p x.meta.key = false := by
        intro x hx
        exact dropWhile_head_false _ _ x hx
      have hstart : findPfx db.strIdx p =
          db.strIdx.dropWhile (fun i => blt i.meta.key p) := by
        simp [findPfx, hM]
      have hres : prefixScan cfg db p limit offset =
          (psLoop p (if 0 < limit then
            psSkip p (if offset < 0 then 0 else offset).toNat
              (db.strIdx.dropWhile (fun i => blt i.meta.key p))
            else db.strIdx.dropWhile (fun i => blt i.meta.key p)) limit,
            none) := by
        unfold prefixScan
        rw [if_neg hz, hchk, hstart]
      refine ⟨by rw [hres], fun h => absurd h hz, ?_, ?_, hord⟩
      · intro hneg
        rw [hres]
        simp only [if_neg (by omega : ¬ 0 < limit)]
        conv_lhs => rw [hMD]
        rw [psLoop_append p _ _ limit hAmem hDhead, if_pos hneg, hfilterl]
      · intro hpos
        rw [hres]
        simp only [if_pos hpos]
        rw [psSkip_eq]
        rw [psLoop_append p _ _ limit
          (fun x hx => hAmem x (List.mem_of_mem_drop hx)) hDhead]
        rw [if_neg (by omega : ¬ limit < 0), hfilterl]
        have hoff : (if offset < 0 then (0 : Int) else offset).toNat =
            (max offset 0).toNat := by
          split <;> omega
        rw [hoff]

/-- Witness for C7's amended claim at a concrete sorted index. -/
theorem c7_prefix_scan_characterized_witness :
    ((prefixScan { blockSize := 1024, maxKeySize := 20, maxValueSize := 20 }
      { emptyDB with strIdx :=
        [{ meta := { key := [97, 49], value := [49], extra := [],
                     keySize := 2, valueSize := 1, extraSize := 0 },
           fileId := 0, entrySize := 23, offset := 0 },
         { meta := { key := [97, 50], value := [50], extra := [],
                     keySize := 2, valueSize := 1, extraSize := 0 },
           fileId := 0, entrySize := 23, offset := 23 }] }
      [97] (-1) 1).2 = none) := by
  have h := c7_prefix_scan_characterized
    { blockSize := 1024, maxKeySize := 20, maxValueSize := 20 }
    { emptyDB with strIdx :=
      [{ meta := { key := [97, 49], value := [49], extra := [],
                   keySize := 2, valueSize := 1, extraSize := 0 },
         fileId := 0, entrySize := 23, offset := 0 },
       { meta := { key := [97, 50], value := [50], extra := [],
                   keySize := 2, valueSize := 1, extraSize := 0 },
         fileId := 0, entrySize := 23, offset := 23 }] }
    [97] (-1) 1 (by constructor <;> simp <;> decide) (by decide) (by decide)
  exact h.1

theorem hasSep_cons_true (x : Nat) (rest : Bytes) (h : hasSep rest = true) :
    hasSep (x :: rest) = true := by
  unfold hasSep
  split
  · rename_i heq
    exact absurd heq (by simp)
  · rfl
  · rename_i hd tl hno heq
    injection heq with h1 h2
    subst h2
    exact h

theorem hasSep_tail (x : Nat) (rest : Bytes) (h : hasSep (x :: rest) = false) :
    hasSep rest = false := by
  cases hr : hasSep rest with
  | false => rfl
  | true =>
    have h2 := hasSep_cons_true x rest hr
    rw [h] at h2
    exact Bool.noConfusion h2

theorem hasSep_of_no92 : ∀ l : Bytes, (∀ b ∈ l, b ≠ 92) → hasSep l = false := by
  intro l
  induction l with
  | nil => intro _; rfl
  | cons x rest ih =>
    intro h
    unfold hasSep
    split
    · rfl
    · rename_i t heq
      injection heq with h1 h2
      subst h1
      exact absurd rfl (h 92 (by simp))
    · rename_i hd tl hno heq
      injection heq with h1 h2
      subst h2
      exact ih (fun b hb => h b (by simp [hb]))

theorem splitSep_no_sep : ∀ l : Bytes, hasSep l = false → splitSep l = [l] := by
  intro l
  induction l with
  | nil => intro _; rfl
  | cons x rest ih =>
    intro h
    have hr : hasSep rest = false := hasSep_tail x rest h
    unfold splitSep
    split
    · rename_i heq
      exact absurd heq (by simp)
    · rename_i t heq
      rw [heq] at h
      rw [show hasSep (92 :: 48 :: t) = true from rfl] at h
      exact Bool.noConfusion h
    · rename_i hd tl hno heq
      injection heq with h1 h2
      subst h1
      subst h2
      rw [ih hr]

theorem splitSep_split : ∀ a b : Bytes, hasSep a = false → hasSep b = false →
    splitSep (a ++ 92 :: 48 :: b) = [a, b] := by
  intro a
  induction a with
  | nil =>
    intro b _ hb
    show splitSep (92 :: 48 :: b) = [[], b]
    rw [show splitSep (92 :: 48 :: b) = [] :: splitSep b from rfl]
    rw [splitSep_no_sep b hb]
  | cons x as ih =>
    intro b ha hb
    have ha' : hasSep as = false := hasSep_tail x as ha
    show splitSep (x :: (as ++ 92 :: 48 :: b)) = [x :: as, b]
    unfold splitSep
    split
    · rename_i heq
      exact absurd heq (by simp)
    · rename_i r heq
      exfalso
      cases as with
      | nil =>
        injection heq with h1 h2
        injection h2 with h3 h4
        omega
      | cons y as' =>
        injection heq with h1 h2
        subst h1
        injection h2 with h3 h4
        subst h3
        rw [show hasSep (92 :: 48 :: as') = true from rfl] at ha
        exact Bool.noConfusion ha
    · rename_i hd tl hno heq
      injection heq with h1 h2
      subst h1
      subst h2
      rw [ih b ha' hb]

theorem natDigits_ne_nil (n : Nat) : natDigits n ≠ [] := by
  rw [natDigits]
  by_cases h : n < 10
  · rw [dif_pos h]; simp
  · rw [dif_neg h]; simp

theorem natDigits_digits : ∀ n : Nat, ∀ b ∈ natDigits n, 48 ≤ b ∧ b ≤ 57 := by
  intro n
  induction n using Nat.strong_induction_on with
  | _ n ih =>
    intro b hb
    rw [natDigits] at hb
    by_cases h : n < 10
    · rw [dif_pos h] at hb
      simp at hb
      omega
    · rw [dif_neg h] at hb
      rw [List.mem_append] at hb
      rcases hb with hb | hb
      · exact ih (n / 10) (by omega) b hb
      · simp at hb
        omega

theorem natDigits_foldl : ∀ n acc : Nat,
    (natDigits n).foldl (fun acc b => acc * 10 + (b - 48)) acc =
      acc * 10 ^ (natDigits n).length + n := by
  intro n
  induction n using Nat.strong_induction_on with
  | _ n ih =>
    intro acc
    rw [natDigits]
    by_cases h : n < 10
    · rw [dif_pos h]
      simp only [List.foldl, List.length_cons, List.length_nil, pow_one]
      omega
    · rw [dif_neg h]
      rw [List.foldl_append]
      rw [ih (n / 10) (by omega) acc]
      simp only [List.foldl, List.length_append, List.length_cons,
        List.length_nil]
      rw [pow_succ]
      have hm : 48 + n % 10 - 48 = n % 10 := by omega
      rw [hm]
      have hdm : n / 10 * 10 + n % 10 = n := by omega
      have hexp : (acc * 10 ^ (natDigits (n / 10)).length + n / 10) * 10 =
          acc * (10 ^ (natDigits (n / 10)).length * 10) + n / 10 * 10 := by
        ring
      rw [hexp, Nat.add_assoc, hdm]

theorem parseNatDigits_natDigits (n : Nat) :
    parseNatDigits (natDigits n) = some n := by
  unfold parseNatDigits
  rw [if_neg (by simp [natDigits_ne_nil n])]
  rw [if_pos]
  · rw [natDigits_foldl n 0]
    simp
  · rw [List.all_eq_true]
    intro b hb
    have := natDigits_digits n b hb
    simp
    omega

theorem natDigits_head_ge (n : Nat) (b : Nat) (t : Bytes)
    (h : natDigits n = b :: t) : 48 ≤ b := by
  have hm : b ∈ natDigits n := by rw [h]; simp
  exact (natDigits_digits n b hm).1

theorem parseInt_itoa (i : Int) : parseInt (itoa i) = some i := by
  unfold itoa
  by_cases h : i < 0
  · rw [if_pos h]
    have hstep : parseInt (45 :: natDigits (-i).toNat) =
        (parseNatDigits (natDigits (-i).toNat)).map (fun n => -(n : Int)) := by
      simp [parseInt]
    rw [hstep, parseNatDigits_natDigits]
    simp
    omega
  · rw [if_neg h]
    cases hd : natDigits i.toNat with
    | nil => exact absurd hd (natDigits_ne_nil _)
    | cons b t =>
      have hb : 48 ≤ b := natDigits_head_ge i.toNat b t hd
      have hstep : parseInt (b :: t) =
          (parseNatDigits (b :: t)).map (fun n => (n : Int)) := by
        simp only [parseInt]
        rw [if_neg (by omega)]
      rw [hstep, ← hd, parseNatDigits_natDigits]
      simp
      omega

theorem hasSep_itoa (i : Int) : hasSep (itoa i) = false := by
  unfold itoa
  by_cases h : i < 0
  · rw [if_pos h]
    refine hasSep_of_no92 _ ?_
    intro b hb
    rcases List.mem_cons.mp hb with hb | hb
    · omega
    · have := natDigits_digits _ b hb
      omega
  · rw [if_neg h]
    refine hasSep_of_no92 _ ?_
    intro b hb
    have := natDigits_digits _ b hb
    omega

theorem expired_mono (exp : Expires) (nowW nowR : Nat) (k : Bytes)
    (hle : nowW ≤ nowR) (h : expired exp nowW k = true) :
    expired exp nowR k = true := by
  unfold expired at h ⊢
  cases hx : lookupA exp k with
  | none => rw [hx] at h; exact absurd h (by simp)
  | some d =>
    rw [hx] at h
    simp at h
    simp
    omega

theorem blt_flip (a b : Bytes) (h1 : blt a b = false) (h2 : a ≠ b) :
    blt b a = true := by
  cases hx : blt b a with
  | true => rfl
  | false => exact absurd (blt_conn a b h1 hx) h2

theorem mem_skPut : ∀ (l : List Indexer) (k : Bytes) (idx x : Indexer),
    x ∈ skPut l k idx → x = idx ∨ x ∈ l := by
  intro l
  induction l with
  | nil =>
    intro k idx x hx
    simp [skPut] at hx
    exact Or.inl hx
  | cons i t ih =>
    intro k idx x hx
    rw [skPut] at hx
    by_cases h1 : blt k i.meta.key
    · rw [if_pos h1] at hx
      rcases List.mem_cons.mp hx with h | h
      · exact Or.inl h
      · exact Or.inr h
    · rw [if_neg h1] at hx
      by_cases h2 : (k == i.meta.key) = true
      · rw [if_pos h2] at hx
        rcases List.mem_cons.mp hx with h | h
        · exact Or.inl h
        · exact Or.inr (List.mem_cons_of_mem i h)
      · rw [if_neg h2] at hx
        rcases List.mem_cons.mp hx with h | h
        · exact Or.inr (by simp [h])
        · rcases ih k idx x h with h3 | h3
          · exact Or.inl h3
          · exact Or.inr (List.mem_cons_of_mem i h3)

theorem skPut_sorted : ∀ (l : List Indexer) (idx : Indexer),
    SortedIdx l → SortedIdx (skPut l idx.meta.key idx) := by
  intro l
  induction l with
  | nil =>
    intro idx _
    simp [skPut, SortedIdx]
  | cons i t ih =>
    intro idx hs
    rw [SortedIdx, List.pairwise_cons] at hs
    obtain ⟨hrel, hst⟩ := hs
    rw [skPut]
    by_cases h1 : blt idx.meta.key i.meta.key
    · rw [if_pos h1]
      rw [SortedIdx, List.pairwise_cons]
      constructor
      · intro x hx
        rcases List.mem_cons.mp hx with h | h
        · rw [h]; exact h1
        · exact blt_trans _ _ _ h1 (hrel x h)
      · rw [List.pairwise_cons]
        exact ⟨hrel, hst⟩
    · rw [if_neg h1]
      by_cases h2 : (idx.meta.key == i.meta.key) = true
      · rw [if_pos h2]
        have hkey : idx.meta.key = i.meta.key := beq_iff_eq.mp h2
        rw [SortedIdx, List.pairwise_cons]
        refine ⟨?_, hst⟩
        intro x hx
        rw [hkey]
        exact hrel x hx
      · rw [if_neg h2]
        have hkey : idx.meta.key ≠ i.meta.key := by
          intro hc
          exact h2 (beq_iff_eq.mpr hc)
        have hgt : blt i.meta.key idx.meta.key = true :=
          blt_flip idx.meta.key i.meta.key (by simpa using h1) hkey
        rw [SortedIdx, List.pairwise_cons]
        constructor
        · intro x hx
          rcases mem_skPut t idx.meta.key idx x hx with h | h
          · rw [h]; exact hgt
          · exact hrel x h
        · exact ih idx hst

theorem skRemove_sublist : ∀ (l : List Indexer) (k : Bytes),
    ((skRemove l k).1).Sublist l := by
  intro l
  induction l with
  | nil => intro k; simp [skRemove]
  | cons i t ih =>
    intro k
    rw [skRemove]
    by_cases h : (i.meta.key == k) = true
    · rw [if_pos h]
      exact List.sublist_cons_self i t
    · rw [if_neg h]
      exact List.Sublist.cons₂ i (ih k)

theorem skRemove_not_found : ∀ (l : List Indexer) (k : Bytes),
    (skRemove l k).2 = false → (skRemove l k).1 = l := by
  intro l
  induction l with
  | nil => intro k _; rfl
  | cons i t ih =>
    intro k h
    rw [skRemove] at h ⊢
    by_cases hk : (i.meta.key == k) = true
    · rw [if_pos hk] at h
      exact absurd h (by simp)
    · rw [if_neg hk] at h ⊢
      simp only at h ⊢
      rw [ih k h]

theorem filter_skPut_expired (exp : Expires) (now : Nat) :
    ∀ (l : List Indexer) (idx : Indexer),
    expired exp now idx.meta.key = true →
    filterUnexpired exp now (skPut l idx.meta.key idx) =
      filterUnexpired exp now l := by
  intro l
  induction l with
  | nil =>
    intro idx he
    simp [skPut, filterUnexpired, List.filter_cons, he]
  | cons i t ih =>
    intro idx he
    rw [skPut]
    by_cases h1 : blt idx.meta.key i.meta.key
    · rw [if_pos h1]
      simp [filterUnexpired, List.filter_cons, he]
    · rw [if_neg h1]
      by_cases h2 : (idx.meta.key == i.meta.key) = true
      · rw [if_pos h2]
        have hkey : idx.meta.key = i.meta.key := beq_iff_eq.mp h2
        have hei : expired exp now i.meta.key = true := hkey ▸ he
        simp [filterUnexpired, List.filter_cons, he, hei]
      · rw [if_neg h2]
        simp only [filterUnexpired, List.filter_cons] at ih ⊢
        cases hei : expired exp now i.meta.key with
        | true => simpa [hei] using ih idx he
        | false => simpa [hei] using ih idx he

theorem skPut_front : ∀ (l : List Indexer) (k : Bytes) (idx : Indexer),
    (∀ j ∈ l, blt k j.meta.key = true) → skPut l k idx = idx :: l := by
  intro l
  induction l with
  | nil => intro k idx _; rfl
  | cons i t _ =>
    intro k idx h
    rw [skPut, if_pos (h i (by simp))]

theorem filter_skPut_unexpired (exp : Expires) (now : Nat) :
    ∀ (l : List Indexer), SortedIdx l → ∀ (idx : Indexer),
    expired exp now idx.meta.key = false →
    filterUnexpired exp now (skPut l idx.meta.key idx) =
      skPut (filterUnexpired exp now l) idx.meta.key idx := by
  intro l
  induction l with
  | nil =>
    intro _ idx he
    simp [skPut, filterUnexpired, List.filter_cons, he]
  | cons i t ih =>
    intro hs idx he
    rw [SortedIdx, List.pairwise_cons] at hs
    obtain ⟨hrel, hst⟩ := hs
    rw [skPut]
    by_cases h1 : blt idx.meta.key i.meta.key
    · rw [if_pos h1]
      cases hei : expired exp now i.meta.key with
      | false =>
        have hL : filterUnexpired exp now (idx :: i :: t) =
            idx :: i :: filterUnexpired exp now t := by
          simp [filterUnexpired, List.filter_cons, he, hei]
        have hR : filterUnexpired exp now (i :: t) =
            i :: filterUnexpired exp now t := by
          simp [filterUnexpired, List.filter_cons, hei]
        rw [hL, hR, skPut, if_pos h1]
      | true =>
        have hL : filterUnexpired exp now (idx :: i :: t) =
            idx :: filterUnexpired exp now t := by
          simp [filterUnexpired, List.filter_cons, he, hei]
        have hR : filterUnexpired exp now (i :: t) =
            filterUnexpired exp now t := by
          simp [filterUnexpired, List.filter_cons, hei]
        rw [hL, hR]
        rw [skPut_front (filterUnexpired exp now t) idx.meta.key idx]
        intro j hj
        have hjt : j ∈ t := List.mem_of_mem_filter hj
        exact blt_trans _ _ _ h1 (hrel j hjt)
    · rw [if_neg h1]
      by_cases h2 : (idx.meta.key == i.meta.key) = true
      · rw [if_pos h2]
        have hkey : idx.meta.key = i.meta.key := beq_iff_eq.mp h2
        have hei : expired exp now i.meta.key = false := hkey ▸ he
        have hL : filterUnexpired exp now (idx :: t) =
            idx :: filterUnexpired exp now t := by
          simp [filterUnexpired, List.filter_cons, he]
        have hR : filterUnexpired exp now (i :: t) =
            i :: filterUnexpired exp now t := by
          simp [filterUnexpired, List.filter_cons, hei]
        rw [hL, hR, skPut, if_pos h2, if_neg h1]
      · rw [if_neg h2]
        cases hei : expired exp now i.meta.key with
        | false =>
          have hL : filterUnexpired exp now
              (i :: skPut t idx.meta.key idx) =
              i :: filterUnexpired exp now (skPut t idx.meta.key idx) := by
            simp [filterUnexpired, List.filter_cons, hei]
          have hR : filterUnexpired exp now (i :: t) =
              i :: filterUnexpired exp now t := by
            simp [filterUnexpired, List.filter_cons, hei]
          rw [hL, hR, ih hst idx he, skPut, if_neg h1, if_neg h2]
        | true =>
          have hL : filterUnexpired exp now
              (i :: skPut t idx.meta.key idx) =
              filterUnexpired exp now (skPut t idx.meta.key idx) := by
            simp [filterUnexpired, List.filter_cons, hei]
          have hR : filterUnexpired exp now (i :: t) =
              filterUnexpired exp now t := by
            simp [filterUnexpired, List.filter_cons, hei]
          rw [hL, hR, ih hst idx he]

theorem filter_skRemove_expired (exp : Expires) (now : Nat) (k : Bytes)
    (he : expired exp now k = true) :
    ∀ l : List Indexer,
    filterUnexpired exp now (skRemove l k).1 = filterUnexpired exp now l := by
  intro l
  induction l with
  | nil => rfl
  | cons i t ih =>
    rw [skRemove]
    by_cases hk : (i.meta.key == k) = true
    · rw [if_pos hk]
      have hkey : i.meta.key = k := beq_iff_eq.mp hk
      have hei : expired exp now i.meta.key = true := hkey ▸ he
      simp [filterUnexpired, List.filter_cons, hei]
    · rw [if_neg hk]
      simp only [filterUnexpired, List.filter_cons] at ih ⊢
      cases hei : expired exp now i.meta.key with
      | true => simpa [hei] using ih
      | false => simpa [hei] using ih

theorem filter_skRemove_unexpired (exp : Expires) (now : Nat) (k : Bytes)
    (he : expired exp now k = false) :
    ∀ l : List Indexer,
    filterUnexpired exp now (skRemove l k).1 =
      (skRemove (filterUnexpired exp now l) k).1 := by
  intro l
  induction l with
  | nil => rfl
  | cons i t ih =>
    rw [skRemove]
    by_cases hk : (i.meta.key == k) = true
    · rw [if_pos hk]
      have hkey : i.meta.key = k := beq_iff_eq.mp hk
      have hei : expired exp now i.meta.key = false := hkey ▸ he
      have hR : filterUnexpired exp now (i :: t) =
          i :: filterUnexpired exp now t := by
        simp [filterUnexpired, List.filter_cons, hei]
      rw [hR, skRemove, if_pos hk]
    · rw [if_neg hk]
      cases hei : expired exp now i.meta.key with
      | false =>
        have hL : filterUnexpired exp now (i :: (skRemove t k).1) =
            i :: filterUnexpired exp now (skRemove t k).1 := by
          simp [filterUnexpired, List.filter_cons, hei]
        have hR : filterUnexpired exp now (i :: t) =
            i :: filterUnexpired exp now t := by
          simp [filterUnexpired, List.filter_cons, hei]
        simp only
        rw [hL, hR, skRemove, if_neg hk]
        simp only
        rw [ih]
      | true =>
        have hL : filterUnexpired exp now (i :: (skRemove t k).1) =
            filterUnexpired exp now (skRemove t k).1 := by
          simp [filterUnexpired, List.filter_cons, hei]
        have hR : filterUnexpired exp now (i :: t) =
            filterUnexpired exp now t := by
          simp [filterUnexpired, List.filter_cons, hei]
        simp only
        rw [hL, hR, ih]

theorem updA_lookup_self {α : Type} :
    ∀ (m : List (Bytes × α)) (k : Bytes) (v : α),
    lookupA m k = some v → updA m k v = m := by
  intro m
  induction m with
  | nil => intro k v h; simp [lookupA] at h
  | cons kv t ih =>
    intro k v h
    rw [updA]
    by_cases hk : (kv.1 == k) = true
    · rw [if_pos hk]
      have h1 : kv.2 = v := by
        simp [lookupA, List.find?_cons, hk] at h
        exact h
      have h2 : kv.1 = k := beq_iff_eq.mp hk
      rw [← h1, ← h2]
    · rw [if_neg hk]
      have h2 : lookupA t k = some v := by
        simp only [lookupA, List.find?_cons, hk] at h ⊢
        exact h
      rw [ih k v h2]

theorem listPop_none (front : Bool) (li : ListIdx) (k : Bytes)
    (h : (listPop front li k).1 = none) : (listPop front li k).2 = li := by
  cases hx : lookupA li k with
  | none => simp [listPop, hx]
  | some cur =>
    cases cur with
    | nil => simp [listPop, hx]
    | cons x t =>
      cases front with
      | true => simp [listPop, hx] at h
      | false =>
        exfalso
        simp [listPop, hx] at h

theorem removeFirstN_zero : ∀ (l : List Bytes) (v : Bytes) (n : Nat),
    (removeFirstN l v n).2 = 0 → (removeFirstN l v n).1 = l := by
  intro l
  induction l with
  | nil => intro v n _; rfl
  | cons x t ih =>
    intro v n h
    rw [removeFirstN] at h ⊢
    by_cases hn : n = 0
    · rw [if_pos hn] at h ⊢
    · rw [if_neg hn] at h ⊢
      by_cases hv : (x == v) = true
      · rw [if_pos hv] at h
        simp at h
      · rw [if_neg hv] at h ⊢
        simp only at h ⊢
        rw [ih v n h]

theorem listLRem_zero (li : ListIdx) (k v : Bytes) (c : Int)
    (h : (listLRem li k v c).1 = 0) : (listLRem li k v c).2 = li := by
  cases hx : lookupA li k with
  | none => simp [listLRem, hx]
  | some cur =>
    by_cases hc : c = 0
    · have hres : listLRem li k v c =
          ((cur.filter (fun x => x == v)).length,
           updA li k (cur.filter (fun x => !(x == v)))) := by
        simp [listLRem, hx, hc]
      rw [hres] at h ⊢
      have hnil : cur.filter (fun x => x == v) = [] :=
        List.length_eq_zero.mp h
      have hself : cur.filter (fun x => !(x == v)) = cur := by
        rw [List.filter_eq_self]
        intro a ha
        have hna : ¬ ((fun x => x == v) a = true) := by
          intro hc2
          have hmem : a ∈ cur.filter (fun x => x == v) :=
            List.mem_filter.mpr ⟨ha, hc2⟩
          rw [hnil] at hmem
          simp at hmem
        simp at hna
        simp [hna]
      rw [hself]
      exact updA_lookup_self li k cur hx
    · by_cases hpos : 0 < c
      · have hres : listLRem li k v c =
            ((removeFirstN cur v c.toNat).2,
             updA li k (removeFirstN cur v c.toNat).1) := by
          simp [listLRem, hx, hc, hpos]
        rw [hres] at h ⊢
        rw [removeFirstN_zero cur v c.toNat h]
        exact updA_lookup_self li k cur hx
      · have hres : listLRem li k v c =
            ((removeFirstN cur.reverse v (-c).toNat).2,
             updA li k (removeFirstN cur.reverse v (-c).toNat).1.reverse) := by
          simp [listLRem, hx, hc, hpos]
        rw [hres] at h ⊢
        rw [removeFirstN_zero cur.reverse v (-c).toNat h]
        rw [List.reverse_reverse]
        exact updA_lookup_self li k cur hx

theorem listLInsert_neg (li : ListIdx) (k : Bytes) (o : Nat)
    (pivot v : Bytes) (h : (listLInsert li k o pivot v).1 = -1) :
    (listLInsert li k o pivot v).2 = li := by
  cases hx : lookupA li k with
  | none => simp [listLInsert, hx]
  | some cur =>
    cases hf : cur.findIdx? (fun x => x == pivot) with
    | none => simp [listLInsert, hx, hf]
    | some i =>
      exfalso
      have hres : (listLInsert li k o pivot v).1 =
          ((if o = 0 then cur.take i ++ v :: cur.drop i
            else if o = 1 then cur.take (i + 1) ++ v :: cur.drop (i + 1)
            else cur).length : Int) := by
        simp [listLInsert, hx, hf]
      rw [hres] at h
      omega

theorem listLSet_false (li : ListIdx) (k : Bytes) (i : Int) (v : Bytes)
    (h : (listLSet li k i v).1 = false) : (listLSet li k i v).2 = li := by
  cases hx : lookupA li k with
  | none => simp [listLSet, hx]
  | some cur =>
    cases hp : listIndexPos cur i with
    | none => simp [listLSet, hx, hp]
    | some j =>
      have hres : (listLSet li k i v).1 = true := by
        simp [listLSet, hx, hp]
      rw [hres] at h
      exact absurd h (by simp)

theorem listLTrim_false (li : ListIdx) (k : Bytes) (s e : Int)
    (h : (listLTrim li k s e).1 = false) : (listLTrim li k s e).2 = li := by
  cases hx : lookupA li k with
  | none => simp [listLTrim, hx]
  | some cur =>
    simp only [listLTrim, hx]
    by_cases h0 : cur.length = 0
    · rw [if_pos h0]
    · rw [if_neg h0]
      by_cases h1 : (handleIndex (cur.length : Int) s e).1 ≤ 0 ∧
          (cur.length : Int) - 1 ≤ (handleIndex (cur.length : Int) s e).2
      · rw [if_pos h1]
      · exfalso
        simp only [listLTrim, hx] at h
        rw [if_neg h0, if_neg h1] at h
        by_cases h2 : (handleIndex (cur.length : Int) s e).2 <
            (handleIndex (cur.length : Int) s e).1 ∨
            (cur.length : Int) ≤ (handleIndex (cur.length : Int) s e).1
        · rw [if_pos h2] at h
          exact absurd h (by simp)
        · rw [if_neg h2] at h
          exact absurd h (by simp)

theorem sRem_false (si : SetIdx) (k m : Bytes)
    (h : (sRem si k m).1 = false) : (sRem si k m).2 = si := by
  cases hx : lookupA si k with
  | none => simp [sRem, hx]
  | some cur =>
    by_cases hm : cur.any (fun x => x == m) = true
    · have hres : (sRem si k m).1 = true := by simp [sRem, hx, hm]
      rw [hres] at h
      exact absurd h (by simp)
    · simp [sRem, hx, hm]

theorem sMove_false (si : SetIdx) (src dst m : Bytes)
    (h : (sMove si src dst m).1 = false) : (sMove si src dst m).2 = si := by
  unfold sMove at h ⊢
  by_cases hr : (sRem si src m).1 = true
  · rw [if_pos hr] at h; exact absurd h (by simp)
  · rw [if_neg hr] at h ⊢

theorem key_length_ne (k : Bytes) (hk : k ≠ []) : k.length ≠ 0 := by
  intro hc
  exact hk (List.length_eq_zero.mp hc)

theorem checkKeyValue_none_key (cfg : Config) (k : Bytes) (vs : List Bytes)
    (h : checkKeyValue cfg k vs = none) : k ≠ [] := by
  intro hc
  subst hc
  simp [checkKeyValue] at h

theorem rotateIfNeeded_log (bs : Nat) (fs : KindFiles) (e : Entry) :
    (rotateIfNeeded bs fs e).log = fs.log := by
  unfold rotateIfNeeded
  split <;> rfl

theorem storeK_eq (bs : Nat) (fs : KindFiles) (e : Entry)
    (h : e.meta.keySize ≠ 0) :
    storeK bs fs e =
      ({ rotateIfNeeded bs fs e with
          activeOffset := (rotateIfNeeded bs fs e).activeOffset + e.size,
          writeOff := (rotateIfNeeded bs fs e).activeOffset + e.size,
          log := (rotateIfNeeded bs fs e).log ++
            [((rotateIfNeeded bs fs e).activeId,
              (rotateIfNeeded bs fs e).activeOffset, e)] },
       some ((rotateIfNeeded bs fs e).activeId,
             (rotateIfNeeded bs fs e).activeOffset)) := by
  simp only [storeK]
  rw [if_neg h]

theorem storeK_log (bs : Nat) (fs : KindFiles) (e : Entry)
    (h : e.meta.keySize ≠ 0) :
    (storeK bs fs e).1.log = fs.log ++
      [((rotateIfNeeded bs fs e).activeId,
        (rotateIfNeeded bs fs e).activeOffset, e)] := by
  rw [storeK_eq bs fs e h]
  simp [rotateIfNeeded_log]

theorem storeRes_fst (bs : Nat) (fs : KindFiles) (e : Entry) :
    (storeRes bs fs e).1 = (storeK bs fs e).1 := by
  unfold storeRes
  cases hs : storeK bs fs e with
  | mk a b => cases b <;> rfl

theorem recoverStr_snoc (exp : Expires) (now : Nat)
    (log : List (Nat × Nat × Entry)) (r : Nat × Nat × Entry) :
    recoverStr exp now (log ++ [r]) =
      applyRecStr exp now (recoverStr exp now log) r := by
  simp [recoverStr, List.foldl_append]

theorem recoverList_snoc (log : List (Nat × Nat × Entry))
    (r : Nat × Nat × Entry) :
    recoverList (log ++ [r]) = applyRecList (recoverList log) r := by
  simp [recoverList, List.foldl_append]

theorem recoverHash_snoc (log : List (Nat × Nat × Entry))
    (r : Nat × Nat × Entry) :
    recoverHash (log ++ [r]) = applyRecHash (recoverHash log) r := by
  simp [recoverHash, List.foldl_append]

theorem recoverSet_snoc (log : List (Nat × Nat × Entry))
    (r : Nat × Nat × Entry) :
    recoverSet (log ++ [r]) = applyRecSet (recoverSet log) r := by
  simp [recoverSet, List.foldl_append]

theorem recoverZSet_snoc (log : List (Nat × Nat × Entry))
    (r : Nat × Nat × Entry) :
    recoverZSet (log ++ [r]) = applyRecZSet (recoverZSet log) r := by
  simp [recoverZSet, List.foldl_append]

theorem bsi_sorted (exp : Expires) (now : Nat) (l : List Indexer)
    (idx : Indexer) (opt : Nat) (hs : SortedIdx l) :
    SortedIdx (buildStringIndex exp now l idx opt) := by
  unfold buildStringIndex
  by_cases he : expired exp now idx.meta.key = true
  · rw [if_pos he]; exact hs
  · rw [if_neg he]
    by_cases h0 : opt = StringSet
    · rw [if_pos h0]; exact skPut_sorted l idx hs
    · rw [if_neg h0]
      by_cases h1 : opt = StringRem
      · rw [if_pos h1]
        exact hs.sublist (skRemove_sublist l idx.meta.key)
      · rw [if_neg h1]; exact hs

theorem bsi_comm (exp : Expires) (nowW nowR : Nat) (hle : nowW ≤ nowR)
    (l : List Indexer) (hs : SortedIdx l) (idx : Indexer) (opt : Nat) :
    filterUnexpired exp nowR (buildStringIndex exp nowW l idx opt) =
      buildStringIndex exp nowR (filterUnexpired exp nowR l) idx opt := by
  unfold buildStringIndex
  by_cases heW : expired exp nowW idx.meta.key = true
  · have heR : expired exp nowR idx.meta.key = true :=
      expired_mono exp nowW nowR idx.meta.key hle heW
    rw [if_pos heW, if_pos heR]
  · rw [if_neg heW]
    by_cases heR : expired exp nowR idx.meta.key = true
    · rw [if_pos heR]
      by_cases h0 : opt = StringSet
      · rw [if_pos h0]
        exact filter_skPut_expired exp nowR l idx heR
      · rw [if_neg h0]
        by_cases h1 : opt = StringRem
        · rw [if_pos h1]
          exact filter_skRemove_expired exp nowR idx.meta.key heR l
        · rw [if_neg h1]
    · have heR' : expired exp nowR idx.meta.key = false := by
        cases hx : expired exp nowR idx.meta.key with
        | false => rfl
        | true => exact absurd hx heR
      rw [if_neg heR]
      by_cases h0 : opt = StringSet
      · rw [if_pos h0, if_pos h0]
        exact filter_skPut_unexpired exp nowR l hs idx heR'
      · rw [if_neg h0, if_neg h0]
        by_cases h1 : opt = StringRem
        · rw [if_pos h1, if_pos h1]
          exact filter_skRemove_unexpired exp nowR idx.meta.key heR' l
        · rw [if_neg h1, if_neg h1]

theorem replay_upd_str (exp : Expires) (nowR : Nat) (db : DB)
    (fs : KindFiles) (si : List Indexer) (hinv : ReplayInv exp nowR db)
    (hlog : recoverStr exp nowR fs.log = filterUnexpired exp nowR si)
    (hsort : SortedIdx si) :
    ReplayInv exp nowR { db with strFiles := fs, strIdx := si } := by
  obtain ⟨_, h2, h3, h4, hz, _⟩ := hinv
  exact ⟨hlog, h2, h3, h4, hz, hsort⟩

theorem replay_upd_list (exp : Expires) (nowR : Nat) (db : DB)
    (fs : KindFiles) (li : ListIdx) (hinv : ReplayInv exp nowR db)
    (h : recoverList fs.log = li) :
    ReplayInv exp nowR { db with listFiles := fs, listIdx := li } := by
  obtain ⟨h1, _, h3, h4, hz, h5⟩ := hinv
  exact ⟨h1, h, h3, h4, hz, h5⟩

theorem replay_upd_hash (exp : Expires) (nowR : Nat) (db : DB)
    (fs : KindFiles) (hi : HashIdx) (hinv : ReplayInv exp nowR db)
    (h : recoverHash fs.log = hi) :
    ReplayInv exp nowR { db with hashFiles := fs, hashIdx := hi } := by
  obtain ⟨h1, h2, _, h4, hz, h5⟩ := hinv
  exact ⟨h1, h2, h, h4, hz, h5⟩

theorem replay_upd_set (exp : Expires) (nowR : Nat) (db : DB)
    (fs : KindFiles) (si : SetIdx) (hinv : ReplayInv exp nowR db)
    (h : recoverSet fs.log = si) :
    ReplayInv exp nowR { db with setFiles := fs, setIdx := si } := by
  obtain ⟨h1, h2, h3, _, hz, h5⟩ := hinv
  exact ⟨h1, h2, h3, h, hz, h5⟩

theorem replay_upd_zset (exp : Expires) (nowR : Nat) (db : DB)
    (fs : KindFiles) (zi : ZSetIdx) (hinv : ReplayInv exp nowR db)
    (h : recoverZSet fs.log = zi) :
    ReplayInv exp nowR { db with zsetFiles := fs, zsetIdx := zi } := by
  obtain ⟨h1, h2, h3, h4, _, h5⟩ := hinv
  exact ⟨h1, h2, h3, h4, h, h5⟩

theorem setOp_inv (cfg : Config) (exp : Expires) (nowW nowR : Nat)
    (db : DB) (k v : Bytes) (hle : nowW ≤ nowR)
    (hinv : ReplayInv exp nowR db) :
    ReplayInv exp nowR (setOp cfg exp nowW db k v).1 := by
  obtain ⟨h1, h2, h3, h4, hz, h5⟩ := hinv
  simp only [setOp]
  cases hc : checkKeyValue cfg k [v] with
  | some err => exact ⟨h1, h2, h3, h4, hz, h5⟩
  | none =>
    have hk : k ≠ [] := checkKeyValue_none_key cfg k [v] hc
    have hks : (newEntryNoExtra k v TString StringSet).meta.keySize ≠ 0 := by
      simp only [newEntryNoExtra, newEntry]
      exact key_length_ne k hk
    rw [storeK_eq _ _ _ hks]
    generalize hrot : rotateIfNeeded cfg.blockSize db.strFiles
      (newEntryNoExtra k v TString StringSet) = r
    have hrl : r.log = db.strFiles.log := by
      rw [← hrot]
      exact rotateIfNeeded_log _ _ _
    apply replay_upd_str exp nowR db _ _ ⟨h1, h2, h3, h4, hz, h5⟩
    · simp only [hrl, recoverStr_snoc, h1]
      rw [bsi_comm exp nowW nowR hle db.strIdx h5]
      simp [applyRecStr, enrichKV, indexerOfRec, newEntryNoExtra, newEntry,
        Nat.add_sub_cancel]
    · exact bsi_sorted exp nowW db.strIdx _ _ h5

theorem strRemOp_inv (cfg : Config) (exp : Expires) (nowR : Nat)
    (db : DB) (k : Bytes) (hinv : ReplayInv exp nowR db) :
    ReplayInv exp nowR (strRemOp cfg db k).1 := by
  obtain ⟨h1, h2, h3, h4, hz, h5⟩ := hinv
  simp only [strRemOp]
  cases hc : checkKeyValue cfg k [[]] with
  | some err => exact ⟨h1, h2, h3, h4, hz, h5⟩
  | none =>
    have hk : k ≠ [] := checkKeyValue_none_key cfg k [[]] hc
    have hks : (newEntryNoExtra k [] TString StringRem).meta.keySize ≠ 0 := by
      simp only [newEntryNoExtra, newEntry]
      exact key_length_ne k hk
    by_cases hr : (skRemove db.strIdx k).2 = true
    · rw [if_pos hr]
      apply replay_upd_str exp nowR db _ _ ⟨h1, h2, h3, h4, hz, h5⟩
      · rw [storeRes_fst, storeK_log _ _ _ hks, recoverStr_snoc, h1]
        by_cases he : expired exp nowR k = true
        · rw [filter_skRemove_expired exp nowR k he db.strIdx]
          simp [applyRecStr, buildStringIndex, enrichKV, indexerOfRec,
            newEntryNoExtra, newEntry, StringSet, StringRem, he]
        · have he' : expired exp nowR k = false := by
            cases hx : expired exp nowR k with
            | false => rfl
            | true => exact absurd hx he
          rw [filter_skRemove_unexpired exp nowR k he' db.strIdx]
          simp [applyRecStr, buildStringIndex, enrichKV, indexerOfRec,
            newEntryNoExtra, newEntry, StringSet, StringRem, he']
      · exact h5.sublist (skRemove_sublist db.strIdx k)
    · rw [if_neg hr]
      exact ⟨h1, h2, h3, h4, hz, h5⟩

theorem pushLoop_rec (front : Bool) (bs : Nat) :
    ∀ (vs : List Bytes) (fs : KindFiles) (li : ListIdx) (key : Bytes),
    key ≠ [] → recoverList fs.log = li →
    recoverList (pushLoop front bs fs li key vs).1.log =
      (pushLoop front bs fs li key vs).2 := by
  intro vs
  induction vs with
  | nil =>
    intro fs li key hk h
    simpa [pushLoop] using h
  | cons v vs ih =>
    intro fs li key hk h
    simp only [pushLoop]
    apply ih
    · exact hk
    · have hks : (newEntryNoExtra key v TList
          (if front then ListLPush else ListRPush)).meta.keySize ≠ 0 := by
        simp only [newEntryNoExtra, newEntry]
        exact key_length_ne key hk
      rw [storeK_log _ _ _ hks, recoverList_snoc, h]
      cases front with
      | true =>
        simp [applyRecList, buildListIndex, enrichKV, indexerOfRec,
          newEntryNoExtra, newEntry, ListLPush, ListRPush, ListLPop,
          ListRPop, ListLRem, ListLInsert, ListLSet, ListLTrim]
      | false =>
        simp [applyRecList, buildListIndex, enrichKV, indexerOfRec,
          newEntryNoExtra, newEntry, ListLPush, ListRPush, ListLPop,
          ListRPop, ListLRem, ListLInsert, ListLSet, ListLTrim]

theorem lpushOp_inv (cfg : Config) (exp : Expires) (nowR : Nat)
    (db : DB) (k : Bytes) (vs : List Bytes) (hinv : ReplayInv exp nowR db) :
    ReplayInv exp nowR (lpushOp cfg db k vs).1 := by
  obtain ⟨h1, h2, h3, h4, hz, h5⟩ := hinv
  simp only [lpushOp]
  cases hc : checkKeyValue cfg k vs with
  | some err => exact ⟨h1, h2, h3, h4, hz, h5⟩
  | none =>
    have hk : k ≠ [] := checkKeyValue_none_key cfg k vs hc
    apply replay_upd_list exp nowR db _ _ ⟨h1, h2, h3, h4, hz, h5⟩
    exact pushLoop_rec true cfg.blockSize vs db.listFiles db.listIdx k hk h2

theorem rpushOp_inv (cfg : Config) (exp : Expires) (nowR : Nat)
    (db : DB) (k : Bytes) (vs : List Bytes) (hinv : ReplayInv exp nowR db) :
    ReplayInv exp nowR (rpushOp cfg db k vs).1 := by
  obtain ⟨h1, h2, h3, h4, hz, h5⟩ := hinv
  simp only [rpushOp]
  cases hc : checkKeyValue cfg k vs with
  | some err => exact ⟨h1, h2, h3, h4, hz, h5⟩
  | none =>
    have hk : k ≠ [] := checkKeyValue_none_key cfg k vs hc
    apply replay_upd_list exp nowR db _ _ ⟨h1, h2, h3, h4, hz, h5⟩
    exact pushLoop_rec false cfg.blockSize vs db.listFiles db.listIdx k hk h2

theorem lpopOp_inv (cfg : Config) (exp : Expires) (nowR : Nat)
    (db : DB) (k : Bytes) (hk : k ≠ []) (hinv : ReplayInv exp nowR db) :
    ReplayInv exp nowR (lpopOp cfg db k).1 := by
  obtain ⟨h1, h2, h3, h4, hz, h5⟩ := hinv
  simp only [lpopOp]
  cases hr : (listPop true db.listIdx k).1 with
  | none =>
    rw [listPop_none true db.listIdx k hr]
    exact ⟨h1, h2, h3, h4, hz, h5⟩
  | some v =>
    apply replay_upd_list exp nowR db _ _ ⟨h1, h2, h3, h4, hz, h5⟩
    have hks : (newEntryNoExtra k v TList ListLPop).meta.keySize ≠ 0 := by
      simp only [newEntryNoExtra, newEntry]
      exact key_length_ne k hk
    rw [storeK_log _ _ _ hks, recoverList_snoc, h2]
    simp [applyRecList, buildListIndex, enrichKV, indexerOfRec,
      newEntryNoExtra, newEntry, ListLPush, ListRPush, ListLPop,
      ListRPop, ListLRem, ListLInsert, ListLSet, ListLTrim]

theorem rpopOp_inv (cfg : Config) (exp : Expires) (nowR : Nat)
    (db : DB) (k : Bytes) (hk : k ≠ []) (hinv : ReplayInv exp nowR db) :
    ReplayInv exp nowR (rpopOp cfg db k).1 := by
  obtain ⟨h1, h2, h3, h4, hz, h5⟩ := hinv
  simp only [rpopOp]
  cases hr : (listPop false db.listIdx k).1 with
  | none =>
    rw [listPop_none false db.listIdx k hr]
    exact ⟨h1, h2, h3, h4, hz, h5⟩
  | some v =>
    apply replay_upd_list exp nowR db _ _ ⟨h1, h2, h3, h4, hz, h5⟩
    have hks : (newEntryNoExtra k v TList ListRPop).meta.keySize ≠ 0 := by
      simp only [newEntryNoExtra, newEntry]
      exact key_length_ne k hk
    rw [storeK_log _ _ _ hks, recoverList_snoc, h2]
    simp [applyRecList, buildListIndex, enrichKV, indexerOfRec,
      newEntryNoExtra, newEntry, ListLPush, ListRPush, ListLPop,
      ListRPop, ListLRem, ListLInsert, ListLSet, ListLTrim]

theorem lremOp_inv (cfg : Config) (exp : Expires) (nowR : Nat)
    (db : DB) (k v : Bytes) (c : Int) (hk : k ≠ [])
    (hinv : ReplayInv exp nowR db) :
    ReplayInv exp nowR (lremOp cfg db k v c).1 := by
  obtain ⟨h1, h2, h3, h4, hz, h5⟩ := hinv
  simp only [lremOp]
  by_cases hr : 0 < (listLRem db.listIdx k v c).1
  · rw [if_pos hr]
    apply replay_upd_list exp nowR db _ _ ⟨h1, h2, h3, h4, hz, h5⟩
    have hks : (newEntry k v (itoa c) TList ListLRem).meta.keySize ≠ 0 := by
      simp only [newEntry]
      exact key_length_ne k hk
    rw [storeRes_fst, storeK_log _ _ _ hks, recoverList_snoc, h2]
    simp [applyRecList, buildListIndex, enrichKV, indexerOfRec,
      newEntry, parseInt_itoa, ListLPush, ListRPush, ListLPop,
      ListRPop, ListLRem, ListLInsert, ListLSet, ListLTrim]
  · rw [if_neg hr]
    have h0 : (listLRem db.listIdx k v c).1 = 0 := by omega
    rw [listLRem_zero db.listIdx k v c h0]
    exact ⟨h1, h2, h3, h4, hz, h5⟩

theorem linsertOp_inv (cfg : Config) (exp : Expires) (nowR : Nat)
    (db : DB) (k : Bytes) (option : Nat) (pivot val : Bytes)
    (hinv : ReplayInv exp nowR db) :
    ReplayInv exp nowR (linsertOp cfg db k option pivot val).1 := by
  obtain ⟨h1, h2, h3, h4, hz, h5⟩ := hinv
  simp only [linsertOp]
  cases hc : checkKeyValue cfg k [val] with
  | some err => exact ⟨h1, h2, h3, h4, hz, h5⟩
  | none =>
    have hk : k ≠ [] := checkKeyValue_none_key cfg k [val] hc
    by_cases hsep : hasSep pivot = true
    · rw [if_pos hsep]
      exact ⟨h1, h2, h3, h4, hz, h5⟩
    · have hsep' : hasSep pivot = false := by
        cases hx : hasSep pivot with
        | false => rfl
        | true => exact absurd hx hsep
      rw [if_neg hsep]
      by_cases hneg : (listLInsert db.listIdx k (option % 256) pivot val).1 = -1
      · rw [if_pos hneg]
        rw [listLInsert_neg db.listIdx k (option % 256) pivot val hneg]
        exact ⟨h1, h2, h3, h4, hz, h5⟩
      · rw [if_neg hneg]
        apply replay_upd_list exp nowR db _ _ ⟨h1, h2, h3, h4, hz, h5⟩
        have hks : (newEntry k val
            (pivot ++ extraSep ++ itoa ((option % 256 : Nat) : Int))
            TList ListLInsert).meta.keySize ≠ 0 := by
          simp only [newEntry]
          exact key_length_ne k hk
        rw [storeRes_fst, storeK_log _ _ _ hks, recoverList_snoc, h2]
        have hsplit : splitSep (pivot ++ extraSep ++
            itoa ((option % 256 : Nat) : Int)) =
            [pivot, itoa ((option % 256 : Nat) : Int)] := by
          have hass : pivot ++ extraSep ++
              itoa ((option % 256 : Nat) : Int) =
              pivot ++ 92 :: 48 :: itoa ((option % 256 : Nat) : Int) := by
            simp [extraSep, List.append_assoc]
          rw [hass]
          exact splitSep_split pivot _ hsep' (hasSep_itoa _)
        simp only [applyRecList, buildListIndex, enrichKV, indexerOfRec,
          newEntry, ListLPush, ListRPush, ListLPop, ListRPop, ListLRem,
          ListLInsert, ListLSet, ListLTrim]
        rw [hsplit]
        simp [parseInt_itoa]
        have hmod : ((option : Int) % 256).toNat = option % 256 := by omega
        rw [hmod]

theorem lsetOp_inv (cfg : Config) (exp : Expires) (nowR : Nat)
    (db : DB) (k : Bytes) (i : Int) (val : Bytes)
    (hinv : ReplayInv exp nowR db) :
    ReplayInv exp nowR (lsetOp cfg db k i val).1 := by
  obtain ⟨h1, h2, h3, h4, hz, h5⟩ := hinv
  simp only [lsetOp]
  cases hc : checkKeyValue cfg k [val] with
  | some err => exact ⟨h1, h2, h3, h4, hz, h5⟩
  | none =>
    have hk : k ≠ [] := checkKeyValue_none_key cfg k [val] hc
    by_cases hr : (listLSet db.listIdx k i val).1 = true
    · rw [if_pos hr]
      apply replay_upd_list exp nowR db _ _ ⟨h1, h2, h3, h4, hz, h5⟩
      have hks : (newEntry k val (itoa i) TList ListLSet).meta.keySize ≠ 0 := by
        simp only [newEntry]
        exact key_length_ne k hk
      rw [storeRes_fst, storeK_log _ _ _ hks, recoverList_snoc, h2]
      simp [applyRecList, buildListIndex, enrichKV, indexerOfRec,
        newEntry, parseInt_itoa, ListLPush, ListRPush, ListLPop,
        ListRPop, ListLRem, ListLInsert, ListLSet, ListLTrim]
    · rw [if_neg hr]
      have hr' : (listLSet db.listIdx k i val).1 = false := by
        cases hx : (listLSet db.listIdx k i val).1 with
        | false => rfl
        | true => exact absurd hx hr
      rw [listLSet_false db.listIdx k i val hr']
      exact ⟨h1, h2, h3, h4, hz, h5⟩

theorem ltrimOp_inv (cfg : Config) (exp : Expires) (nowR : Nat)
    (db : DB) (k : Bytes) (s t : Int) (hk : k ≠ [])
    (hinv : ReplayInv exp nowR db) :
    ReplayInv exp nowR (ltrimOp cfg db k s t).1 := by
  obtain ⟨h1, h2, h3, h4, hz, h5⟩ := hinv
  simp only [ltrimOp]
  by_cases hr : (listLTrim db.listIdx k s t).1 = true
  · rw [if_pos hr]
    apply replay_upd_list exp nowR db _ _ ⟨h1, h2, h3, h4, hz, h5⟩
    have hks : (newEntry k [] (itoa s ++ extraSep ++ itoa t)
        TList ListLTrim).meta.keySize ≠ 0 := by
      simp only [newEntry]
      exact key_length_ne k hk
    rw [storeRes_fst, storeK_log _ _ _ hks, recoverList_snoc, h2]
    have hsplit : splitSep (itoa s ++ extraSep ++ itoa t) =
        [itoa s, itoa t] := by
      have hass : itoa s ++ extraSep ++ itoa t =
          itoa s ++ 92 :: 48 :: itoa t := by
        simp [extraSep, List.append_assoc]
      rw [hass]
      exact splitSep_split (itoa s) (itoa t) (hasSep_itoa s) (hasSep_itoa t)
    simp only [applyRecList, buildListIndex, enrichKV, indexerOfRec,
      newEntry, ListLPush, ListRPush, ListLPop, ListRPop, ListLRem,
      ListLInsert, ListLSet, ListLTrim]
    rw [hsplit]
    simp [parseInt_itoa]
  · rw [if_neg hr]
    have hr' : (listLTrim db.listIdx k s t).1 = false := by
      cases hx : (listLTrim db.listIdx k s t).1 with
      | false => rfl
      | true => exact absurd hx hr
    rw [listLTrim_false db.listIdx k s t hr']
    exact ⟨h1, h2, h3, h4, hz, h5⟩

theorem saddLoop_rec (bs : Nat) :
    ∀ (ms : List Bytes) (fs : KindFiles) (si : SetIdx) (key : Bytes),
    key ≠ [] → recoverSet fs.log = si →
    recoverSet (saddLoop bs fs si key ms).1.log =
      (saddLoop bs fs si key ms).2 := by
  intro ms
  induction ms with
  | nil =>
    intro fs si key hk h
    simpa [saddLoop] using h
  | cons m ms ih =>
    intro fs si key hk h
    simp only [saddLoop]
    apply ih
    · exact hk
    · have hks : (newEntryNoExtra key m TSet SetSAdd).meta.keySize ≠ 0 := by
        simp only [newEntryNoExtra, newEntry]
        exact key_length_ne key hk
      rw [storeK_log _ _ _ hks, recoverSet_snoc, h]
      simp [applyRecSet, buildSetIndex, enrichKV, indexerOfRec,
        newEntryNoExtra, newEntry, SetSAdd, SetSRem, SetSMove]

theorem sremLoop_rec (bs : Nat) :
    ∀ (ms : List Bytes) (fs : KindFiles) (si : SetIdx) (key : Bytes),
    key ≠ [] → recoverSet fs.log = si →
    recoverSet (sremLoop bs fs si key ms).1.log =
      (sremLoop bs fs si key ms).2 := by
  intro ms
  induction ms with
  | nil =>
    intro fs si key hk h
    simpa [sremLoop] using h
  | cons m ms ih =>
    intro fs si key hk h
    simp only [sremLoop]
    by_cases hr : (sRem si key m).1 = true
    · rw [if_pos hr]
      apply ih
      · exact hk
      · have hks : (newEntryNoExtra key m TSet SetSRem).meta.keySize ≠ 0 := by
          simp only [newEntryNoExtra, newEntry]
          exact key_length_ne key hk
        rw [storeK_log _ _ _ hks, recoverSet_snoc, h]
        simp [applyRecSet, buildSetIndex, enrichKV, indexerOfRec,
          newEntryNoExtra, newEntry, SetSAdd, SetSRem, SetSMove]
    · rw [if_neg hr]
      apply ih
      · exact hk
      · have hr' : (sRem si key m).1 = false := by
          cases hx : (sRem si key m).1 with
          | false => rfl
          | true => exact absurd hx hr
        rw [sRem_false si key m hr']
        exact h

theorem saddOp_inv (cfg : Config) (exp : Expires) (nowR : Nat)
    (db : DB) (k : Bytes) (ms : List Bytes) (hinv : ReplayInv exp nowR db) :
    ReplayInv exp nowR (saddOp cfg db k ms).1 := by
  obtain ⟨h1, h2, h3, h4, hz, h5⟩ := hinv
  simp only [saddOp]
  cases hc : checkKeyValue cfg k ms with
  | some err => exact ⟨h1, h2, h3, h4, hz, h5⟩
  | none =>
    have hk : k ≠ [] := checkKeyValue_none_key cfg k ms hc
    apply replay_upd_set exp nowR db _ _ ⟨h1, h2, h3, h4, hz, h5⟩
    exact saddLoop_rec cfg.blockSize ms db.setFiles db.setIdx k hk h4

theorem sremOp_inv (cfg : Config) (exp : Expires) (nowR : Nat)
    (db : DB) (k : Bytes) (ms : List Bytes) (hinv : ReplayInv exp nowR db) :
    ReplayInv exp nowR (sremOp cfg db k ms).1 := by
  obtain ⟨h1, h2, h3, h4, hz, h5⟩ := hinv
  simp only [sremOp]
  cases hc : checkKeyValue cfg k ms with
  | some err => exact ⟨h1, h2, h3, h4, hz, h5⟩
  | none =>
    have hk : k ≠ [] := checkKeyValue_none_key cfg k ms hc
    apply replay_upd_set exp nowR db _ _ ⟨h1, h2, h3, h4, hz, h5⟩
    exact sremLoop_rec cfg.blockSize ms db.setFiles db.setIdx k hk h4

theorem smoveOp_inv (cfg : Config) (exp : Expires) (nowR : Nat)
    (db : DB) (src dst m : Bytes) (hsrc : src ≠ [])
    (hinv : ReplayInv exp nowR db) :
    ReplayInv exp nowR (smoveOp cfg db src dst m).1 := by
  obtain ⟨h1, h2, h3, h4, hz, h5⟩ := hinv
  simp only [smoveOp]
  by_cases hr : (sMove db.setIdx src dst m).1 = true
  · rw [if_pos hr]
    apply replay_upd_set exp nowR db _ _ ⟨h1, h2, h3, h4, hz, h5⟩
    have hks : (newEntry src m dst TSet SetSMove).meta.keySize ≠ 0 := by
      simp only [newEntry]
      exact key_length_ne src hsrc
    rw [storeRes_fst, storeK_log _ _ _ hks, recoverSet_snoc, h4]
    simp [applyRecSet, buildSetIndex, enrichKV, indexerOfRec,
      newEntry, SetSAdd, SetSRem, SetSMove]
  · rw [if_neg hr]
    have hr' : (sMove db.setIdx src dst m).1 = false := by
      cases hx : (sMove db.setIdx src dst m).1 with
      | false => rfl
      | true => exact absurd hx hr
    rw [sMove_false db.setIdx src dst m hr']
    exact ⟨h1, h2, h3, h4, hz, h5⟩

theorem hsetOp_inv (cfg : Config) (exp : Expires) (nowR : Nat)
    (db : DB) (k f v : Bytes) (hinv : ReplayInv exp nowR db) :
    ReplayInv exp nowR (hsetOp cfg db k f v).1 := by
  obtain ⟨h1, h2, h3, h4, hz, h5⟩ := hinv
  simp only [hsetOp]
  cases hc : checkKeyValue cfg k [v] with
  | some err => exact ⟨h1, h2, h3, h4, hz, h5⟩
  | none =>
    have hk : k ≠ [] := checkKeyValue_none_key cfg k [v] hc
    apply replay_upd_hash exp nowR db _ _ ⟨h1, h2, h3, h4, hz, h5⟩
    have hks : (newEntry k v f THash HashHSet).meta.keySize ≠ 0 := by
      simp only [newEntry]
      exact key_length_ne k hk
    rw [storeRes_fst, storeK_log _ _ _ hks, recoverHash_snoc, h3]
    simp [applyRecHash, buildHashIndex, enrichKV, indexerOfRec,
      newEntry, HashHSet, HashHDel]

theorem hdelOp_inv (cfg : Config) (exp : Expires) (nowR : Nat)
    (db : DB) (k f : Bytes) (hinv : ReplayInv exp nowR db) :
    ReplayInv exp nowR (hdelOp cfg db k f).1 := by
  obtain ⟨h1, h2, h3, h4, hz, h5⟩ := hinv
  simp only [hdelOp]
  cases hc : checkKeyValue cfg k [[]] with
  | some err => exact ⟨h1, h2, h3, h4, hz, h5⟩
  | none =>
    have hk : k ≠ [] := checkKeyValue_none_key cfg k [[]] hc
    apply replay_upd_hash exp nowR db _ _ ⟨h1, h2, h3, h4, hz, h5⟩
    have hks : (newEntry k [] f THash HashHDel).meta.keySize ≠ 0 := by
      simp only [newEntry]
      exact key_length_ne k hk
    rw [storeRes_fst, storeK_log _ _ _ hks, recoverHash_snoc, h3]
    simp [applyRecHash, buildHashIndex, enrichKV, indexerOfRec,
      newEntry, HashHSet, HashHDel]

theorem appendOp_inv (cfg : Config) (exp : Expires) (nowW nowR : Nat)
    (db : DB) (k v : Bytes) (hle : nowW ≤ nowR)
    (hinv : ReplayInv exp nowR db) :
    ReplayInv exp nowR (appendOp cfg exp nowW db k v).1 := by
  simp only [appendOp]
  cases hc : checkKeyValue cfg k [v] with
  | some err => exact hinv
  | none =>
    cases hg : getOp db k with
    | mk ov oe =>
      cases ov with
      | some old =>
        cases oe with
        | some err => exact hinv
        | none =>
          exact setOp_inv cfg exp nowW nowR db k (old ++ v) hle hinv
      | none =>
        cases oe with
        | some err => exact hinv
        | none => exact setOp_inv cfg exp nowW nowR db k v hle hinv

theorem setNxOp_inv (cfg : Config) (exp : Expires) (nowW nowR : Nat)
    (db : DB) (k v : Bytes) (hle : nowW ≤ nowR)
    (hinv : ReplayInv exp nowR db) :
    ReplayInv exp nowR (setNxOp cfg exp nowW db k v).1 := by
  simp only [setNxOp]
  by_cases hex : strExists cfg db k = true
  · rw [if_pos hex]
    exact hinv
  · rw [if_neg hex]
    exact setOp_inv cfg exp nowW nowR db k v hle hinv

theorem spopStores_rec (bs : Nat) :
    ∀ (vs : List Bytes) (fs : KindFiles) (si : SetIdx) (key : Bytes),
    key ≠ [] → recoverSet fs.log = si →
    recoverSet (spopStores bs fs key vs).log =
      vs.foldl (fun s m => (sRem s key m).2) si := by
  intro vs
  induction vs with
  | nil =>
    intro fs si key hk h
    simpa [spopStores] using h
  | cons v vs ih =>
    intro fs si key hk h
    simp only [spopStores, List.foldl_cons]
    apply ih
    · exact hk
    · have hks : (newEntryNoExtra key v TSet SetSRem).meta.keySize ≠ 0 := by
        simp only [newEntryNoExtra, newEntry]
        exact key_length_ne key hk
      rw [storeK_log _ _ _ hks, recoverSet_snoc, h]
      simp [applyRecSet, buildSetIndex, enrichKV, indexerOfRec,
        newEntryNoExtra, newEntry, SetSAdd, SetSRem, SetSMove]

theorem spopOp_inv (cfg : Config) (exp : Expires) (nowR : Nat)
    (db : DB) (k : Bytes) (count : Nat) (hinv : ReplayInv exp nowR db) :
    ReplayInv exp nowR (spopOp cfg db k count).1 := by
  obtain ⟨h1, h2, h3, h4, hz, h5⟩ := hinv
  simp only [spopOp]
  cases hc : checkKeyValue cfg k [[]] with
  | some err => exact ⟨h1, h2, h3, h4, hz, h5⟩
  | none =>
    have hk : k ≠ [] := checkKeyValue_none_key cfg k [[]] hc
    apply replay_upd_set exp nowR db _ _ ⟨h1, h2, h3, h4, hz, h5⟩
    simp only [sPop]
    exact spopStores_rec cfg.blockSize _ db.setFiles db.setIdx k hk h4

theorem zaddOp_inv (cfg : Config) (exp : Expires) (nowR : Nat)
    (db : DB) (k : Bytes) (s : Score) (m : Bytes)
    (hinv : ReplayInv exp nowR db) :
    ReplayInv exp nowR (zaddOp cfg db k s m).1 := by
  obtain ⟨h1, h2, h3, h4, hz, h5⟩ := hinv
  simp only [zaddOp]
  cases hc : checkKeyValue cfg k [m] with
  | some err => exact ⟨h1, h2, h3, h4, hz, h5⟩
  | none =>
    have hk : k ≠ [] := checkKeyValue_none_key cfg k [m] hc
    apply replay_upd_zset exp nowR db _ _ ⟨h1, h2, h3, h4, hz, h5⟩
    have hks : (newEntry k m (float64ToStr s) TZSet ZSetZAdd).meta.keySize
        ≠ 0 := by
      simp only [newEntry]
      exact key_length_ne k hk
    rw [storeRes_fst, storeK_log _ _ _ hks, recoverZSet_snoc, hz]
    simp [applyRecZSet, buildZSetIndex, enrichKV, indexerOfRec, newEntry,
      strToFloat64, float64ToStr, ZSetZAdd, ZSetZRem]

theorem zremOp_inv (cfg : Config) (exp : Expires) (nowR : Nat)
    (db : DB) (k m : Bytes) (hinv : ReplayInv exp nowR db) :
    ReplayInv exp nowR (zremOp cfg db k m).1 := by
  obtain ⟨h1, h2, h3, h4, hz, h5⟩ := hinv
  simp only [zremOp]
  cases hc : checkKeyValue cfg k [m] with
  | some err => exact ⟨h1, h2, h3, h4, hz, h5⟩
  | none =>
    have hk : k ≠ [] := checkKeyValue_none_key cfg k [m] hc
    apply replay_upd_zset exp nowR db _ _ ⟨h1, h2, h3, h4, hz, h5⟩
    have hks : (newEntryNoExtra k m TZSet ZSetZRem).meta.keySize ≠ 0 := by
      simp only [newEntryNoExtra, newEntry]
      exact key_length_ne k hk
    rw [storeRes_fst, storeK_log _ _ _ hks, recoverZSet_snoc, hz]
    simp [applyRecZSet, buildZSetIndex, enrichKV, indexerOfRec,
      newEntryNoExtra, newEntry, strToFloat64, ZSetZAdd, ZSetZRem]

theorem applyOp_inv (cfg : Config) (exp : Expires) (nowW nowR : Nat)
    (db : DB) (op : Op) (hle : nowW ≤ nowR) (hop : keyedOp op = true)
    (hinv : ReplayInv exp nowR db) :
    ReplayInv exp nowR (applyOp cfg exp nowW db op) := by
  cases op with
  | set k v => exact setOp_inv cfg exp nowW nowR db k v hle hinv
  | setNx k v => exact setNxOp_inv cfg exp nowW nowR db k v hle hinv
  | append k v => exact appendOp_inv cfg exp nowW nowR db k v hle hinv
  | strRem k => exact strRemOp_inv cfg exp nowR db k hinv
  | lpush k vs => exact lpushOp_inv cfg exp nowR db k vs hinv
  | rpush k vs => exact rpushOp_inv cfg exp nowR db k vs hinv
  | lpop k =>
    have hk : k ≠ [] := by
      intro hnil
      subst hnil
      simp [keyedOp] at hop
    exact lpopOp_inv cfg exp nowR db k hk hinv
  | rpop k =>
    have hk : k ≠ [] := by
      intro hnil
      subst hnil
      simp [keyedOp] at hop
    exact rpopOp_inv cfg exp nowR db k hk hinv
  | lrem k v c =>
    have hk : k ≠ [] := by
      intro hnil
      subst hnil
      simp [keyedOp] at hop
    exact lremOp_inv cfg exp nowR db k v c hk hinv
  | linsert k o p v => exact linsertOp_inv cfg exp nowR db k o p v hinv
  | lset k i v => exact lsetOp_inv cfg exp nowR db k i v hinv
  | ltrim k s t =>
    have hk : k ≠ [] := by
      intro hnil
      subst hnil
      simp [keyedOp] at hop
    exact ltrimOp_inv cfg exp nowR db k s t hk hinv
  | sadd k ms => exact saddOp_inv cfg exp nowR db k ms hinv
  | srem k ms => exact sremOp_inv cfg exp nowR db k ms hinv
  | spop k c => exact spopOp_inv cfg exp nowR db k c hinv
  | zadd k s m => exact zaddOp_inv cfg exp nowR db k s m hinv
  | zrem k m => exact zremOp_inv cfg exp nowR db k m hinv
  | smove s d m =>
    have hs : s ≠ [] := by
      intro hnil
      subst hnil
      simp [keyedOp] at hop
    exact smoveOp_inv cfg exp nowR db s d m hs hinv
  | hset k f v => exact hsetOp_inv cfg exp nowR db k f v hinv
  | hdel k f => exact hdelOp_inv cfg exp nowR db k f hinv

theorem replayInv_empty (exp : Expires) (nowR : Nat) :
    ReplayInv exp nowR emptyDB :=
  ⟨rfl, rfl, rfl, rfl, rfl, List.Pairwise.nil⟩

theorem runOps_inv (cfg : Config) (exp : Expires) (nowW nowR : Nat)
    (hle : nowW ≤ nowR) :
    ∀ (ops : List Op) (db : DB), (∀ op ∈ ops, keyedOp op = true) →
    ReplayInv exp nowR db →
    ReplayInv exp nowR (runOps cfg exp nowW db ops) := by
  intro ops
  induction ops with
  | nil =>
    intro db _ hinv
    simpa [runOps] using hinv
  | cons op t ih =>
    intro db hall hinv
    exact ih (applyOp cfg exp nowW db op)
      (fun o ho => hall o (List.mem_cons_of_mem _ ho))
      (applyOp_inv cfg exp nowW nowR db op hle (hall op (by simp)) hinv)

/-- C2 counterexample: a three-operation sequence — SAdd(k1, m), then
SMove(k1, empty, m) which legitimately parks the member under the empty
destination key, then SMove(empty, k3, m) — where the last SMove
succeeds in the in-memory set index (moving the member out of the
empty-keyed set) but its record carries the empty source as its key, so
DBFile.Write rejects it and nothing reaches the log; replaying the log
then rebuilds a set index different from the live one, violating the
claimed equality for this sequence of operations. -/
theorem c2_unkeyed_smove_diverges :
    recoverSet (runOps
        { blockSize := 1024, maxKeySize := 10, maxValueSize := 10 }
        [] 0 emptyDB
        [Op.sadd [1] [[2]], Op.smove [1] [] [2],
         Op.smove [] [3] [2]]).setFiles.log ≠
      (runOps
        { blockSize := 1024, maxKeySize := 10, maxValueSize := 10 }
        [] 0 emptyDB
        [Op.sadd [1] [[2]], Op.smove [1] [] [2],
         Op.smove [] [3] [2]]).setIdx := by
  decide

/-- C2 amended: for every sequence of the twenty mutating operations
whose unvalidated key arguments (the keys of LPop, RPop, LRem and LTrim
and the source key of SMove) are non-empty, run from an empty database
at write time nowW, replaying the persisted records per kind in log
order at a reopen time nowR ≥ nowW rebuilds exactly the live List,
Hash, Set and ZSet indexes, and rebuilds the live String index with the
keys whose expiry deadline has passed at nowR elided. -/
theorem c2_recovery_equivalence (cfg : Config) (exp : Expires)
    (nowW nowR : Nat) (hle : nowW ≤ nowR) (ops : List Op)
    (hops : ∀ op ∈ ops, keyedOp op = true) :
    recoverStr exp nowR (runOps cfg exp nowW emptyDB ops).strFiles.log =
      filterUnexpired exp nowR (runOps cfg exp nowW emptyDB ops).strIdx ∧
    recoverList (runOps cfg exp nowW emptyDB ops).listFiles.log =
      (runOps cfg exp nowW emptyDB ops).listIdx ∧
    recoverHash (runOps cfg exp nowW emptyDB ops).hashFiles.log =
      (runOps cfg exp nowW emptyDB ops).hashIdx ∧
    recoverSet (runOps cfg exp nowW emptyDB ops).setFiles.log =
      (runOps cfg exp nowW emptyDB ops).setIdx ∧
    recoverZSet (runOps cfg exp nowW emptyDB ops).zsetFiles.log =
      (runOps cfg exp nowW emptyDB ops).zsetIdx := by
  obtain ⟨h1, h2, h3, h4, hz, _⟩ := runOps_inv cfg exp nowW nowR hle ops
    emptyDB hops (replayInv_empty exp nowR)
  exact ⟨h1, h2, h3, h4, hz⟩

/-- Witness for C2's amended claim: a concrete twelve-operation session
over all five kinds — a String key that expires between write time 2 and
reopen time 3, a SetNx no-op, an Append to a live key, a removed key,
block rotation forced by a small BlockSize, a list pop, a set pop and a
zset add and remove — replayed at the later reopen time. -/
theorem c2_recovery_equivalence_witness :
    recoverZSet (runOps
        { blockSize := 30, maxKeySize := 10, maxValueSize := 10 }
        [([1], 3)] 2 emptyDB
        [Op.set [1] [7], Op.setNx [1] [9], Op.append [1] [3],
         Op.set [2] [8], Op.strRem [2], Op.lpush [3] [[9], [10]],
         Op.lpop [3], Op.sadd [4] [[5], [6]], Op.spop [4] 1,
         Op.hset [6] [6] [6], Op.zadd [7] [49] [8],
         Op.zrem [7] [8]]).zsetFiles.log =
      (runOps
        { blockSize := 30, maxKeySize := 10, maxValueSize := 10 }
        [([1], 3)] 2 emptyDB
        [Op.set [1] [7], Op.setNx [1] [9], Op.append [1] [3],
         Op.set [2] [8], Op.strRem [2], Op.lpush [3] [[9], [10]],
         Op.lpop [3], Op.sadd [4] [[5], [6]], Op.spop [4] 1,
         Op.hset [6] [6] [6], Op.zadd [7] [49] [8],
         Op.zrem [7] [8]]).zsetIdx :=
  (c2_recovery_equivalence
    { blockSize := 30, maxKeySize := 10, maxValueSize := 10 }
    [([1], 3)] 2 3 (by decide)
    [Op.set [1] [7], Op.setNx [1] [9], Op.append [1] [3],
     Op.set [2] [8], Op.strRem [2], Op.lpush [3] [[9], [10]],
     Op.lpop [3], Op.sadd [4] [[5], [6]], Op.spop [4] 1,
     Op.hset [6] [6] [6], Op.zadd [7] [49] [8],
     Op.zrem [7] [8]] (by decide)).2.2.2.2

end MinDb
